import Mathlib

/-!
Shallow embedding of the Tock console capsule (`capsules/src/console.rs`):
a multiplexed serial driver that chunks oversized userspace write requests
through a single 64-byte transmit slot, arbitrates among waiting processes,
and dispatches hardware completion events back to process callbacks.

Processes are identified by naturals; an `AppSlice` is a `List Nat` of bytes;
the grant region is an association list in attachment order.  Hardware
transmit/receive primitives are modelled as always accepting: the buffer
moves from the driver's `TakeCell` into an `hw_tx`/`hw_rx` field, and a
completion event returns it.  Rust panics (the `slice.len() -
write_remaining` underflow in `send`) surface as `none`/`crash`.
-/

namespace Tock

/-- Error kinds of the Tock `ReturnCode` used by the console. -/
inductive ErrX where
  | EBUSY | ERESERVE | ESIZE | EINVAL | ENOSUPPORT | ECANCEL | FAIL
deriving Repr, DecidableEq

/-- Return code of a syscall-facing entry point: `Ok(Success)` or an error. -/
abbrev RC := Except ErrX Unit

/-- Numeric value a `ReturnCode` error turns into when scheduled as the first
argument of a callback (`e.into()` in the Rust). Exact values are irrelevant
to the claims; they only need to be fixed. -/
def errNum : ErrX → Nat
  | .EBUSY => 2
  | .ERESERVE => 5
  | .ESIZE => 7
  | .EINVAL => 6
  | .ENOSUPPORT => 8
  | .ECANCEL => 4
  | .FAIL => 1

/-- `Success::Success.into()`. -/
def successNum : Nat := 0

/-- Hardware receive completion status (`uart::Error`). -/
inductive UartErr where
  | none | aborted | other
deriving Repr, DecidableEq

/-- Observable events emitted by the driver: hardware calls, copies into
process memory, and scheduled process callbacks. -/
inductive Event where
  | evTransmit (chunk : List Nat) (len : Nat)
  | evReceive (len : Nat)
  | evAbortRx
  | evWriteCb (app : Nat) (r0 : Nat)
  | evCopyToApp (app : Nat) (data : List Nat)
  | evReadCb (app : Nat) (r0 r1 : Nat)
deriving Repr, DecidableEq

/-- Per-process grant state (`struct App`), zero/`Default` initialised. -/
structure App where
  write_callback : Bool := false
  write_buffer : Option (List Nat) := none
  write_len : Nat := 0
  write_remaining : Nat := 0
  pending_write : Bool := false
  read_callback : Bool := false
  read_buffer : Option (List Nat) := none
  read_len : Nat := 0
deriving Repr, DecidableEq

/-- `App::default()`: the zero-initialised grant entry. -/
def appDefault : App :=
  { write_callback := false, write_buffer := none, write_len := 0,
    write_remaining := 0, pending_write := false,
    read_callback := false, read_buffer := none, read_len := 0 }

/-- Driver state (`struct Console`) together with the buffers currently held
by the hardware transport and the trace of emitted events. -/
structure St where
  apps : List (Nat × App)
  tx_in_progress : Option Nat
  tx_buffer : Option (List Nat)
  rx_in_progress : Option Nat
  rx_buffer : Option (List Nat)
  hw_tx : Option (List Nat × Nat)
  hw_rx : Option (List Nat × Nat)
  events : List Event
deriving Repr, DecidableEq

/-- Does the grant list hold an entry for process `i`. -/
def hasApp : List (Nat × App) → Nat → Bool
  | [], _ => false
  | p :: rest, i => if p.1 = i then true else hasApp rest i

/-- Grant entry of process `i` (`Default` if absent). -/
def getApp : List (Nat × App) → Nat → App
  | [], _ => appDefault
  | p :: rest, i => if p.1 = i then p.2 else getApp rest i

/-- Store back the grant entry of process `i`. -/
def setApp : List (Nat × App) → Nat → App → List (Nat × App)
  | [], _, _ => []
  | p :: rest, i, a => if p.1 = i then (i, a) :: rest else p :: setApp rest i a

/-- `Grant::enter` allocates the grant region lazily on first use; new
processes are appended, so iteration order is attachment order. -/
def ensureApp (apps : List (Nat × App)) (i : Nat) : List (Nat × App) :=
  if hasApp apps i then apps else apps ++ [(i, appDefault)]

/-- Overwrite the front of `dst` with `src`, keeping `dst`'s length: the
bounded copy loop `for (i, c) in src.iter().enumerate() { if dst.len() <= i
\x7b break \x7d; dst[i] = *c }`. -/
def copyFront : List Nat → List Nat → List Nat
  | dst, [] => dst
  | [], _ => []
  | _ :: dst, c :: src => c :: copyFront dst src

/-- `Console::send`: if the transmit slot is idle, claim it, copy the last
`write_remaining` bytes of `slice` into the slot (clipped to slot capacity),
and hand the slot to the hardware; otherwise mark the process pending and
retain its buffer.  Returns `none` when the Rust source-window computation
`slice.len() - app.write_remaining` would underflow and panic. -/
def send (s : St) (app_id : Nat) (app : App) (slice : List Nat) :
    Option (St × App) :=
  match s.tx_in_progress with
  | none =>
    let s1 := { s with tx_in_progress := some app_id }
    match s1.tx_buffer with
    | none => some (s1, app)
    | some buffer =>
      if slice.length < app.write_remaining then none
      else
        let src := slice.drop (slice.length - app.write_remaining)
        let buffer2 := copyFront buffer src
        if buffer.length < app.write_remaining then
          some ({ s1 with
                    tx_buffer := none,
                    hw_tx := some (buffer2, buffer.length),
                    events := s1.events ++ [Event.evTransmit buffer2 buffer.length] },
                { app with
                    write_remaining := app.write_remaining - buffer.length,
                    write_buffer := some slice })
        else
          some ({ s1 with
                    tx_buffer := none,
                    hw_tx := some (buffer2, app.write_remaining),
                    events := s1.events ++ [Event.evTransmit buffer2 app.write_remaining] },
                { app with write_remaining := 0 })
  | some _ =>
    some (s, { app with pending_write := true, write_buffer := some slice })

/-- `Console::send_new`: take the registered write buffer (else `EBUSY`),
set `write_len = write_remaining = min(len, slice.len())`, hand off to
`send`. -/
def send_new (s : St) (app_id : Nat) (app : App) (len : Nat) :
    Option (St × App × RC) :=
  match app.write_buffer with
  | some slice =>
    let w := min len slice.length
    let app1 := { app with write_buffer := none, write_len := w,
                           write_remaining := w }
    (send s app_id app1 slice).map (fun p => (p.1, p.2, Except.ok ()))
  | none => some (s, app, Except.error ErrX.EBUSY)

/-- `Console::send_continue`: if bytes remain, re-invoke `send` with the
retained buffer (absent buffer is the fatal `ERESERVE`); `ok false` means
the transaction has completed. -/
def send_continue (s : St) (app_id : Nat) (app : App) :
    Option (St × App × Except ErrX Bool) :=
  if 0 < app.write_remaining then
    match app.write_buffer with
    | none => some (s, app, Except.error ErrX.ERESERVE)
    | some slice =>
      let app1 := { app with write_buffer := none }
      (send s app_id app1 slice).map (fun p => (p.1, p.2, Except.ok true))
  else
    some (s, app, Except.ok false)

/-- `Console::receive_new`: takes the shared receive slot out of its cell
first (`EBUSY` if absent), then checks the registered read buffer
(`EINVAL` if absent) and compares `read_len = min(len, slice.len())`
against `self.rx_buffer.map_or(0, |buf| buf.len())` — the cell that was
just emptied — rejecting with `ESIZE`; on the error paths the taken slot
buffer is dropped.  On success it records `rx_in_progress` and hands the
slot to the hardware. -/
def receive_new (s : St) (app_id : Nat) (app : App) (len : Nat) :
    St × App × RC :=
  match s.rx_buffer with
  | none => (s, app, Except.error ErrX.EBUSY)
  | some rx_buf =>
    let s1 := { s with rx_buffer := none }
    match app.read_buffer with
    | some slice =>
      let read_len := min len slice.length
      if (match s1.rx_buffer with | some b => b.length | none => 0) < read_len then
        (s1, app, Except.error ErrX.ESIZE)
      else
        let app1 := { app with read_len := read_len }
        ({ s1 with rx_in_progress := some app_id,
                   hw_rx := some (rx_buf, read_len),
                   events := s1.events ++ [Event.evReceive read_len] },
         app1, Except.ok ())
    | none => (s1, app, Except.error ErrX.EINVAL)

/-- `Driver::allow`: operand 1 registers (replaces) the write buffer,
operand 2 the read buffer. -/
def allowFn (s : St) (appid allow_num : Nat) (slice : Option (List Nat)) :
    St × RC :=
  match allow_num with
  | 1 =>
    let apps := ensureApp s.apps appid
    let a := getApp apps appid
    ({ s with apps := setApp apps appid { a with write_buffer := slice } },
     Except.ok ())
  | 2 =>
    let apps := ensureApp s.apps appid
    let a := getApp apps appid
    ({ s with apps := setApp apps appid { a with read_buffer := slice } },
     Except.ok ())
  | _ => (s, Except.error ErrX.ENOSUPPORT)

/-- `Driver::subscribe`: operand 1 registers the write-done callback,
operand 2 the read-done callback. -/
def subscribeFn (s : St) (appid subscribe_num : Nat) (cb : Bool) :
    St × RC :=
  match subscribe_num with
  | 1 =>
    let apps := ensureApp s.apps appid
    let a := getApp apps appid
    ({ s with apps := setApp apps appid { a with write_callback := cb } },
     Except.ok ())
  | 2 =>
    let apps := ensureApp s.apps appid
    let a := getApp apps appid
    ({ s with apps := setApp apps appid { a with read_callback := cb } },
     Except.ok ())
  | _ => (s, Except.error ErrX.ENOSUPPORT)

/-- Arbitration loop at the end of `transmitted_buffer`: scan the grant in
attachment order for the first process with `pending_write`, clear the flag,
re-invoke `send_continue`, stop at the first one that actually started. -/
def arbitrate (s : St) : List Nat → Option St
  | [] => some s
  | i :: rest =>
    let app := getApp s.apps i
    if app.pending_write then
      let app1 := { app with pending_write := false }
      match send_continue s i app1 with
      | none => none
      | some (s2, app2, Except.ok more) =>
        let s3 := { s2 with apps := setApp s2.apps i app2 }
        if more then some s3 else arbitrate s3 rest
      | some (s2, app2, Except.error e) =>
        let app3 := { app2 with write_len := 0, write_remaining := 0,
                                pending_write := false }
        let s3 := { s2 with apps := setApp s2.apps i app3 }
        let s4 := if app3.write_callback
                  then { s3 with events := s3.events ++ [Event.evWriteCb i (errNum e)] }
                  else s3
        arbitrate s4 rest
    else arbitrate s rest

/-- Owner phase of `transmitted_buffer`: after `tx_in_progress.take()`,
enter the owner's grant and either continue its transaction or complete it,
scheduling its write callback (the `Err` arm handles the fatal
`ERESERVE` case by zeroing the write state and reporting the error code). -/
def completeOwner (s : St) (appid : Nat) : Option St :=
  let s1 := { s with tx_in_progress := none,
                     apps := ensureApp s.apps appid }
  let app := getApp s1.apps appid
  match send_continue s1 appid app with
  | none => none
  | some (s2, app2, Except.ok more) =>
    if more then some { s2 with apps := setApp s2.apps appid app2 }
    else
      let written := app2.write_len
      let app3 := { app2 with write_len := 0 }
      let s3 := if app3.write_callback
                then { s2 with events := s2.events ++ [Event.evWriteCb appid written] }
                else s2
      some { s3 with apps := setApp s3.apps appid app3 }
  | some (s2, app2, Except.error e) =>
    let app3 := { app2 with write_len := 0, write_remaining := 0,
                            pending_write := false }
    let s3 := if app3.write_callback
              then { s2 with events := s2.events ++ [Event.evWriteCb appid (errNum e)] }
              else s2
    some { s3 with apps := setApp s3.apps appid app3 }

/-- `uart::TransmitClient::transmitted_buffer`: return the slot to its cell,
continue or complete the owner's transaction (scheduling its write callback
when complete), then, if the slot stayed idle, arbitrate among pending
processes. -/
def transmitted_buffer (s : St) (buffer : List Nat) : Option St :=
  let s0 := { s with tx_buffer := some buffer }
  let afterOwner : Option St :=
    match s0.tx_in_progress with
    | none => some s0
    | some appid => completeOwner s0 appid
  match afterOwner with
  | none => none
  | some s4 =>
    if s4.tx_in_progress = none then arbitrate s4 (s4.apps.map Prod.fst)
    else some s4

/-- `uart::ReceiveClient::received_buffer`: clear `rx_in_progress`, and if
the owner has a read callback, copy the first `rx_len` received bytes into
its registered read buffer (bounded by that buffer's length, consuming the
registration) and schedule the callback; finally always return the slot
buffer to its cell. -/
def received_buffer (s : St) (buffer : List Nat) (rx_len : Nat)
    (error : UartErr) : St :=
  let s1 :=
    match s.rx_in_progress with
    | none => s
    | some appid =>
      let s0 := { s with rx_in_progress := none,
                         apps := ensureApp s.apps appid }
      let app := getApp s0.apps appid
      if app.read_callback then
        match error with
        | UartErr.none | UartErr.aborted =>
          match app.read_buffer with
          | some app_buffer =>
            let written := copyFront app_buffer (buffer.take rx_len)
            let rettype := if error = UartErr.none then successNum
                           else errNum ErrX.ECANCEL
            { s0 with
                apps := setApp s0.apps appid { app with read_buffer := none },
                events := s0.events ++
                  [Event.evCopyToApp appid written,
                   Event.evReadCb appid rettype rx_len] }
          | none =>
            { s0 with events := s0.events ++
                [Event.evReadCb appid (errNum ErrX.EINVAL) 0] }
        | UartErr.other =>
          { s0 with events := s0.events ++
              [Event.evReadCb appid (errNum ErrX.FAIL) 0] }
      else s0
  { s1 with rx_buffer := some buffer }

/-- `Driver::command`: 0 = probe, 1 = start write, 2 = start read,
3 = abort receive.  `none` is a Rust panic inside `send`. -/
def command (s : St) (cmd arg1 appid : Nat) : Option (St × RC) :=
  match cmd with
  | 0 => some (s, Except.ok ())
  | 1 =>
    let s1 := { s with apps := ensureApp s.apps appid }
    match send_new s1 appid (getApp s1.apps appid) arg1 with
    | none => none
    | some (s2, a2, rc) => some ({ s2 with apps := setApp s2.apps appid a2 }, rc)
  | 2 =>
    let s1 := { s with apps := ensureApp s.apps appid }
    match receive_new s1 appid (getApp s1.apps appid) arg1 with
    | (s2, a2, rc) => some ({ s2 with apps := setApp s2.apps appid a2 }, rc)
  | 3 => some ({ s with events := s.events ++ [Event.evAbortRx] }, Except.ok ())
  | _ => some (s, Except.error ErrX.ENOSUPPORT)

/-- One interaction with the driver: a syscall or a hardware completion. -/
inductive Op where
  | opAllow (appid num : Nat) (slice : Option (List Nat))
  | opSubscribe (appid num : Nat) (cb : Bool)
  | opCommand (appid cmd arg1 : Nat)
  | opTxComplete
  | opRxComplete (returned : List Nat) (rx_len : Nat) (err : UartErr)
deriving Repr, DecidableEq

/-- Result of one step: a new state, `stuck` when the event cannot occur
(a completion with no hardware operation in flight), or `crash` for a Rust
panic. -/
inductive StepRes where
  | ok (s : St)
  | stuck
  | crash
deriving Repr, DecidableEq

/-- Small-step semantics of the driver.  A transmit completion returns the
exact buffer the hardware was given; a receive completion returns a buffer
of the slot's length holding up to `rx_len` received bytes. -/
def step (s : St) : Op → StepRes
  | .opAllow a n sl => .ok (allowFn s a n sl).1
  | .opSubscribe a n cb => .ok (subscribeFn s a n cb).1
  | .opCommand a c arg =>
    match command s c arg a with
    | none => .crash
    | some (s1, _) => .ok s1
  | .opTxComplete =>
    match s.hw_tx with
    | none => .stuck
    | some (buf, _len) =>
      match transmitted_buffer { s with hw_tx := none } buf with
      | none => .crash
      | some s1 => .ok s1
  | .opRxComplete returned rx_len err =>
    match s.hw_rx with
    | none => .stuck
    | some (buf, _reqlen) =>
      if returned.length = buf.length ∧ rx_len ≤ buf.length then
        .ok (received_buffer { s with hw_rx := none } returned rx_len err)
      else .stuck

/-- Run a list of operations from a state; `stuck`/`crash` abort the run. -/
def runOps (s : St) : List Op → StepRes
  | [] => .ok s
  | op :: rest =>
    match step s op with
    | .ok s1 => runOps s1 rest
    | r => r

/-- Initial driver state: `Console::new` with the static 64-byte
`WRITE_BUF`/`READ_BUF` slots and an empty grant. -/
def init : St :=
  { apps := [], tx_in_progress := none,
    tx_buffer := some (List.replicate 64 0),
    rx_in_progress := none,
    rx_buffer := some (List.replicate 64 0),
    hw_tx := none, hw_rx := none, events := [] }

/-- States reachable from `init` by any sequence of syscalls and hardware
completions. -/
inductive Reach : St → Prop where
  | init : Reach init
  | step {s s' : St} {op : Op} : Reach s → step s op = .ok s' → Reach s'

/-- Iterate transmit-completion events. -/
def driveTx (s : St) : Nat → StepRes
  | 0 => .ok s
  | n + 1 =>
    match step s Op.opTxComplete with
    | .ok s1 => driveTx s1 n
    | r => r

/-- Chunk lengths the send state machine produces for a request of `w`
bytes through a 64-byte slot. -/
def chunks (w : Nat) : List Nat :=
  if h : w ≤ 64 then [w]
  else
    have : w - 64 < w := by omega
    64 :: chunks (w - 64)

/-- Chunk lengths still to be transmitted when `k` bytes remain after the
chunk currently in flight. -/
def restChunks (k : Nat) : List Nat :=
  if k = 0 then [] else chunks k

/-- Length of a transmit event (0 for other events). -/
def txLen : Event → Nat
  | .evTransmit _ l => l
  | _ => 0

/-- State after `send` hands chunk `chunk` of length `tlen` to the hardware
on behalf of process `i`. -/
def txPost (s : St) (i : Nat) (chunk : List Nat) (tlen : Nat) : St :=
  { s with tx_in_progress := some i, tx_buffer := none,
           hw_tx := some (chunk, tlen),
           events := s.events ++ [Event.evTransmit chunk tlen] }

/-- The chunk `send` copies into the slot `buffer`: the last
`write_remaining` bytes of `sl`, clipped to the slot length. -/
def txChunk (buffer sl : List Nat) (rem : Nat) : List Nat :=
  copyFront buffer (sl.drop (sl.length - rem))

/-- State after `receive_new` hands the receive slot `rb` to the hardware
for `rlen` bytes on behalf of process `i`. -/
def rxPost (s : St) (i : Nat) (rb : List Nat) (rlen : Nat) : St :=
  { s with rx_buffer := none, rx_in_progress := some i,
           hw_rx := some (rb, rlen),
           events := s.events ++ [Event.evReceive rlen] }

/-- The state of an `ok` step result (`init` otherwise); lets concrete
runs be stated without existentials. -/
def stOf : StepRes → St
  | .ok s => s
  | _ => init

/-- Start-read after registering a 3-byte read buffer: drives the receive
slot into the lost state. -/
def c3ops : List Op := [Op.opAllow 0 2 (some [0, 0, 0]), Op.opCommand 0 2 2]

/-- Register a 10-byte read buffer (receive slot capacity is 64). -/
def c5ops : List Op := [Op.opAllow 0 2 (some (List.replicate 10 0))]

/-- Subscribe and register a read buffer, then start a zero-length read
(the only accepted kind, see C5): leaves a receive in flight. -/
def c6ops : List Op :=
  [Op.opSubscribe 0 2 true, Op.opAllow 0 2 (some [1, 2, 3]),
   Op.opCommand 0 2 0]

/-- A process grant entry with only write-side state populated. -/
def mkW (cb : Bool) (wb : Option (List Nat)) (wl wr : Nat) (p : Bool) : App :=
  { write_callback := cb, write_buffer := wb, write_len := wl,
    write_remaining := wr, pending_write := p,
    read_callback := false, read_buffer := none, read_len := 0 }

/-- Three attached processes 0, 1, 2 (in attachment order) with process 0's
chunk in flight with the hardware. -/
def abcState (appA appB appC : App) (slot : List Nat) (clen : Nat)
    (ev : List Event) : St :=
  { apps := [(0, appA), (1, appB), (2, appC)],
    tx_in_progress := some 0,
    tx_buffer := none,
    rx_in_progress := none,
    rx_buffer := some (List.replicate 64 0),
    hw_tx := some (slot, clen),
    hw_rx := none,
    events := ev }

/-- Single-process in-flight transmit state: process 0 has `w` total bytes
requested, `k` bytes still unsent beyond the chunk currently with the
hardware (whose slot content is `slot` and chunk length `clen`), and
retains its buffer in `wb` iff more chunks are coming. -/
def midSt (slot : List Nat) (wb : Option (List Nat)) (w k clen : Nat)
    (ev : List Event) : St :=
  { apps := [(0, mkW true wb w k false)],
    tx_in_progress := some 0,
    tx_buffer := none,
    rx_in_progress := none,
    rx_buffer := some (List.replicate 64 0),
    hw_tx := some (slot, clen),
    hw_rx := none,
    events := ev }

/-- State after a successful command (the driver state unchanged when the
command errors out or panics). -/
def cmdSt (s : St) (c a1 i : Nat) : St :=
  match command s c a1 i with
  | some (s1, _) => s1
  | none => s

/-- Two processes register write buffers and callbacks; process 0 starts a
5-byte write which goes in flight. -/
def c8ops : List Op :=
  [Op.opAllow 0 1 (some [1, 1, 1, 1, 1]), Op.opSubscribe 0 1 true,
   Op.opAllow 1 1 (some [2, 2, 2]), Op.opSubscribe 1 1 true,
   Op.opCommand 0 1 5]

/-- State with process 0's write in flight and process 1 fully set up. -/
def c8s4 : St := stOf (runOps init c8ops)

/-- Process 1 issues an accepted zero-length write while the slot is
busy. -/
def c8s5 : St := cmdSt c8s4 1 0 1

/-- Process 0's transmission completes; arbitration runs. -/
def c8s6 : St := stOf (step c8s5 Op.opTxComplete)

/-- Start a 65-byte write (one chunk in flight, 1 byte retained). -/
def c10pre : List Op :=
  [Op.opAllow 0 1 (some (List.replicate 65 3)), Op.opCommand 0 1 65]

/-- After the chunk is in flight, replace the write buffer with an empty
one, then let the transmission complete. -/
def c10ops : List Op :=
  [Op.opAllow 0 1 (some (List.replicate 65 3)), Op.opCommand 0 1 65,
   Op.opAllow 0 1 (some []), Op.opTxComplete]

/-- Two-state discipline of the transmit slot: the buffer is in the
driver's cell iff it is not with the hardware, and an in-flight slot always
has a recorded owner. -/
def TxTwoState (s : St) : Prop :=
  (s.tx_buffer ≠ none ↔ s.hw_tx = none) ∧
  (s.hw_tx ≠ none → s.tx_in_progress ≠ none)

/-- While a receive is outstanding the receive slot cell is empty. -/
def RxClaimed (s : St) : Prop := s.hw_rx ≠ none → s.rx_buffer = none

/-- Conjunction of the slot invariants maintained by every step. -/
def MInv (s : St) : Prop := TxTwoState s ∧ RxClaimed s

/-- The receive slot is lost: neither in the cell nor with the hardware.
Entered by the error paths of `receive_new` and never left. -/
def RxDead (s : St) : Prop := s.rx_buffer = none ∧ s.hw_rx = none

/-- Per-process bound making the `send` source-window computation safe. -/
def AInv (a : App) : Prop :=
  ∀ b, a.write_buffer = some b → a.write_remaining ≤ b.length

/-- `AInv` for every grant entry. -/
def WInvL (l : List (Nat × App)) : Prop := ∀ i : Nat, AInv (getApp l i)

/-- Restriction on operations under which the `send` window never
underflows: an `allow` (operand 1) may not replace a process's write buffer
with one shorter than its current `write_remaining`. -/
def OkOp (s : St) : Op → Prop
  | Op.opAllow i n (some sl) =>
      n = 1 → (getApp s.apps i).write_remaining ≤ sl.length
  | _ => True

/-- States reachable from `init` when every `allow` (operand 1) call
respects `OkOp`: it never replaces a write buffer with one shorter than the
process's current `write_remaining`. -/
inductive ReachR : St → Prop where
  | init : ReachR init
  | step {s s' : St} {op : Op} : ReachR s → OkOp s op → step s op = .ok s' →
      ReachR s'

section Helpers

theorem copyFront_length (dst src : List Nat) :
    (copyFront dst src).length = dst.length := by
  induction dst generalizing src with
  | nil => cases src <;> simp [copyFront]
  | cons d ds ih => cases src <;> simp [copyFront, ih]

theorem chunks_sum (w : Nat) : (chunks w).sum = w := by
  induction w using Nat.strong_induction_on with
  | _ w ih =>
    rw [chunks]
    by_cases h : w ≤ 64
    · simp [h]
    · have := ih (w - 64) (by omega)
      simp [h, this]
      omega

theorem chunks_cons (k : Nat) :
    chunks k = min k 64 :: restChunks (k - 64) := by
  rw [chunks]
  by_cases h : k ≤ 64
  · simp [h, restChunks, Nat.sub_eq_zero_of_le h, Nat.min_eq_left h]
  · have h64 : min k 64 = 64 := by omega
    have hk : ¬(k - 64 = 0) := by omega
    simp [h, restChunks, hk, h64]

theorem getApp_absent {l : List (Nat × App)} {i : Nat}
    (h : hasApp l i = false) : getApp l i = appDefault := by
  induction l with
  | nil => simp [getApp]
  | cons p rest ih =>
    by_cases hp : p.1 = i
    · simp [hasApp, hp] at h
    · simp [hasApp, hp] at h
      simp [getApp, hp, ih h]

theorem setApp_absent {l : List (Nat × App)} {i : Nat} {a : App}
    (h : hasApp l i = false) : setApp l i a = l := by
  induction l with
  | nil => simp [setApp]
  | cons p rest ih =>
    by_cases hp : p.1 = i
    · simp [hasApp, hp] at h
    · simp [hasApp, hp] at h
      simp [setApp, hp, ih h]

theorem getApp_setApp_self {l : List (Nat × App)} {i : Nat} {a : App}
    (h : hasApp l i = true) : getApp (setApp l i a) i = a := by
  induction l with
  | nil => simp [hasApp] at h
  | cons p rest ih =>
    by_cases hp : p.1 = i
    · simp [setApp, hp, getApp]
    · simp [hasApp, hp] at h
      simp [setApp, hp, getApp, ih h]

theorem getApp_setApp_ne {l : List (Nat × App)} {i j : Nat} {a : App}
    (h : j ≠ i) : getApp (setApp l i a) j = getApp l j := by
  induction l with
  | nil => simp [setApp]
  | cons p rest ih =>
    simp only [setApp]
    by_cases hp : p.1 = i
    · rw [if_pos hp]
      simp only [getApp]
      have h1 : ¬((i, a).1 = j) := by
        simp only []
        exact fun hh => h hh.symm
      have h2 : ¬(p.1 = j) := by
        rw [hp]; exact fun hh => h hh.symm
      rw [if_neg h1, if_neg h2]
    · rw [if_neg hp]
      simp only [getApp]
      by_cases hq : p.1 = j
      · rw [if_pos hq, if_pos hq]
      · rw [if_neg hq, if_neg hq, ih]

theorem hasApp_setApp {l : List (Nat × App)} {i j : Nat} {a : App} :
    hasApp (setApp l i a) j = hasApp l j := by
  induction l with
  | nil => simp [setApp]
  | cons p rest ih =>
    simp only [setApp]
    by_cases hp : p.1 = i
    · rw [if_pos hp]
      simp only [hasApp]
      by_cases hq : p.1 = j
      · have : ((i, a).1 = j) := by simp only []; rw [← hp]; exact hq
        rw [if_pos this, if_pos hq]
      · have : ¬((i, a).1 = j) := by
          simp only []
          rw [← hp]; exact hq
        rw [if_neg this, if_neg hq]
    · rw [if_neg hp]
      simp only [hasApp]
      by_cases hq : p.1 = j
      · rw [if_pos hq, if_pos hq]
      · rw [if_neg hq, if_neg hq, ih]

theorem getApp_append_single {l : List (Nat × App)} {i j : Nat} {a : App}
    (h : hasApp l j = false) :
    getApp (l ++ [(i, a)]) j = if i = j then a else appDefault := by
  induction l with
  | nil => simp [getApp]
  | cons p rest ih =>
    by_cases hp : p.1 = j
    · simp [hasApp, hp] at h
    · simp only [hasApp, if_neg hp] at h
      simp only [List.cons_append, getApp, if_neg hp]
      exact ih h

theorem hasApp_append_single_self {l : List (Nat × App)} {i : Nat} {a : App} :
    hasApp (l ++ [(i, a)]) i = true := by
  induction l with
  | nil => simp [hasApp]
  | cons p rest ih =>
    simp only [List.cons_append, hasApp]
    by_cases hp : p.1 = i
    · rw [if_pos hp]
    · rw [if_neg hp]; exact ih

theorem hasApp_ensureApp_self (l : List (Nat × App)) (i : Nat) :
    hasApp (ensureApp l i) i = true := by
  unfold ensureApp
  by_cases h : hasApp l i
  · rw [if_pos h]; exact h
  · simp only [Bool.not_eq_true] at h
    rw [if_neg (by simp [h])]
    exact hasApp_append_single_self

theorem getApp_ensureApp_self (l : List (Nat × App)) (i : Nat) :
    getApp (ensureApp l i) i = getApp l i := by
  unfold ensureApp
  by_cases h : hasApp l i
  · rw [if_pos h]
  · simp only [Bool.not_eq_true] at h
    rw [if_neg (by simp [h]), getApp_append_single h, getApp_absent h]
    simp

theorem getApp_ensureApp_ne {l : List (Nat × App)} {i j : Nat}
    (h : j ≠ i) : getApp (ensureApp l i) j = getApp l j := by
  unfold ensureApp
  by_cases hh : hasApp l i
  · rw [if_pos hh]
  · simp only [Bool.not_eq_true] at hh
    rw [if_neg (by simp [hh])]
    by_cases hj : hasApp l j
    · clear hh
      induction l with
      | nil => simp [hasApp] at hj
      | cons p rest ih =>
        simp only [List.cons_append, getApp]
        by_cases hp : p.1 = j
        · rw [if_pos hp, if_pos hp]
        · rw [if_neg hp, if_neg hp]
          simp only [hasApp, if_neg hp] at hj
          exact ih hj
    · simp only [Bool.not_eq_true] at hj
      rw [getApp_append_single hj, getApp_absent hj]
      rw [if_neg (fun hh => h hh.symm)]

end Helpers

section SendLemmas

/-- Complete case analysis of a non-panicking `send` call. -/
theorem send_cases {s : St} {i : Nat} {a : App} {sl : List Nat} {s' : St}
    {a' : App} (h : send s i a sl = some (s', a')) :
    (∃ oid, s.tx_in_progress = some oid ∧ s' = s ∧
        a' = { a with pending_write := true, write_buffer := some sl }) ∨
    (s.tx_in_progress = none ∧ s.tx_buffer = none ∧
        s' = { s with tx_in_progress := some i } ∧ a' = a) ∨
    (∃ buffer, s.tx_in_progress = none ∧ s.tx_buffer = some buffer ∧
        a.write_remaining ≤ sl.length ∧
        ((buffer.length < a.write_remaining ∧
          s' = txPost s i (txChunk buffer sl a.write_remaining) buffer.length ∧
          a' = { a with write_remaining := a.write_remaining - buffer.length,
                        write_buffer := some sl }) ∨
         (a.write_remaining ≤ buffer.length ∧
          s' = txPost s i (txChunk buffer sl a.write_remaining)
                 a.write_remaining ∧
          a' = { a with write_remaining := 0 }))) := by
  unfold send at h
  split at h
  next hin =>
    dsimp only at h
    split at h
    next hbuf =>
      right; left
      simp only [Option.some.injEq, Prod.mk.injEq] at h
      exact ⟨hin, hbuf, h.1.symm, h.2.symm⟩
    next buffer hbuf =>
      split at h
      next hg => exact absurd h (by simp)
      next hg =>
        right; right
        refine ⟨buffer, hin, hbuf, by omega, ?_⟩
        split at h
        next hc =>
          simp only [Option.some.injEq, Prod.mk.injEq] at h
          exact Or.inl ⟨hc, by rw [← h.1]; rfl, h.2.symm⟩
        next hc =>
          simp only [Option.some.injEq, Prod.mk.injEq] at h
          exact Or.inr ⟨by omega, by rw [← h.1]; rfl, h.2.symm⟩
  next oid hin =>
    left
    simp only [Option.some.injEq, Prod.mk.injEq] at h
    exact ⟨oid, hin, h.1.symm, h.2.symm⟩

/-- `send` cannot panic when the remaining count is bounded by the slice. -/
theorem send_total {s : St} {i : Nat} {a : App} {sl : List Nat}
    (hle : a.write_remaining ≤ sl.length) :
    ∃ p, send s i a sl = some p := by
  unfold send
  split
  · dsimp only
    split
    · exact ⟨_, rfl⟩
    · split
      next hg => omega
      next hg =>
        split
        · exact ⟨_, rfl⟩
        · exact ⟨_, rfl⟩
  · exact ⟨_, rfl⟩

/-- Complete case analysis of a non-panicking `send_continue` call. -/
theorem send_continue_cases {s : St} {i : Nat} {a : App} {s' : St} {a' : App}
    {r : Except ErrX Bool} (h : send_continue s i a = some (s', a', r)) :
    (a.write_remaining = 0 ∧ s' = s ∧ a' = a ∧ r = Except.ok false) ∨
    (0 < a.write_remaining ∧ a.write_buffer = none ∧ s' = s ∧ a' = a ∧
        r = Except.error ErrX.ERESERVE) ∨
    (∃ sl, 0 < a.write_remaining ∧ a.write_buffer = some sl ∧
        r = Except.ok true ∧
        send s i { a with write_buffer := none } sl = some (s', a')) := by
  unfold send_continue at h
  split at h
  next hr =>
    split at h
    next hwb =>
      right; left
      simp only [Option.some.injEq, Prod.mk.injEq] at h
      exact ⟨hr, hwb, h.1.symm, h.2.1.symm, h.2.2.symm⟩
    next sl hwb =>
      right; right
      dsimp only at h
      rcases hs : send s i { a with write_buffer := none } sl with _ | p <;>
          rw [hs] at h
      · exact absurd h (by simp)
      · simp only [Option.map_some', Option.some.injEq, Prod.mk.injEq] at h
        exact ⟨sl, hr, hwb, h.2.2.symm, by rw [hs, ← h.1, ← h.2.1]⟩
  next hr =>
    left
    simp only [Option.some.injEq, Prod.mk.injEq] at h
    exact ⟨by omega, h.1.symm, h.2.1.symm, h.2.2.symm⟩

/-- `send_continue` cannot panic when the retained buffer is long enough. -/
theorem send_continue_total {s : St} {i : Nat} {a : App}
    (hle : ∀ b, a.write_buffer = some b → a.write_remaining ≤ b.length) :
    ∃ p, send_continue s i a = some p := by
  unfold send_continue
  split
  next hr =>
    split
    next hwb => exact ⟨_, rfl⟩
    next sl hwb =>
      dsimp only
      obtain ⟨p, hp⟩ :=
        @send_total s i { a with write_buffer := none } sl (hle sl hwb)
      rw [hp]
      exact ⟨_, rfl⟩
  next hr => exact ⟨_, rfl⟩

end SendLemmas

section ReceiveLemmas

/-- Complete case analysis of a `receive_new` call. -/
theorem receive_new_cases {s : St} {i : Nat} {a : App} {len : Nat} {s' : St}
    {a' : App} {r : RC} (h : receive_new s i a len = (s', a', r)) :
    (s.rx_buffer = none ∧ s' = s ∧ a' = a ∧ r = Except.error ErrX.EBUSY) ∨
    (∃ rb, s.rx_buffer = some rb ∧ a.read_buffer = none ∧
        s' = { s with rx_buffer := none } ∧ a' = a ∧
        r = Except.error ErrX.EINVAL) ∨
    (∃ rb sl, s.rx_buffer = some rb ∧ a.read_buffer = some sl ∧
        0 < min len sl.length ∧
        s' = { s with rx_buffer := none } ∧ a' = a ∧
        r = Except.error ErrX.ESIZE) ∨
    (∃ rb sl, s.rx_buffer = some rb ∧ a.read_buffer = some sl ∧
        min len sl.length = 0 ∧
        s' = rxPost s i rb (min len sl.length) ∧
        a' = { a with read_len := min len sl.length } ∧ r = Except.ok ()) := by
  unfold receive_new at h
  split at h
  next hrx =>
    left
    simp only [Prod.mk.injEq] at h
    exact ⟨hrx, h.1.symm, h.2.1.symm, h.2.2.symm⟩
  next rb hrx =>
    dsimp only at h
    split at h
    next sl hrb =>
      split at h
      next hsz =>
        right; right; left
        simp only [Prod.mk.injEq] at h
        exact ⟨rb, sl, hrx, hrb, hsz, h.1.symm, h.2.1.symm, h.2.2.symm⟩
      next hsz =>
        right; right; right
        simp only [Prod.mk.injEq] at h
        refine ⟨rb, sl, hrx, hrb, by omega, ?_, h.2.1.symm, h.2.2.symm⟩
        rw [← h.1]; rfl
    next hrb =>
      right; left
      simp only [Prod.mk.injEq] at h
      exact ⟨rb, hrx, hrb, h.1.symm, h.2.1.symm, h.2.2.symm⟩

/-- When the receive slot cell is empty, every start-read is `EBUSY` and
the state is untouched. -/
theorem receive_new_busy {s : St} (hrx : s.rx_buffer = none)
    (i : Nat) (a : App) (len : Nat) :
    receive_new s i a len = (s, a, Except.error ErrX.EBUSY) := by
  unfold receive_new
  split
  next => rfl
  next rb h => rw [hrx] at h; exact absurd h (by simp)

/-- The `ESIZE` path of `receive_new`: any start-read with positive
effective length, taken after the slot buffer has been removed from the
cell, is rejected and the taken buffer is dropped. -/
theorem receive_new_esize {s : St} {a : App} {rb sl : List Nat} {len : Nat}
    (hrx : s.rx_buffer = some rb) (hrb : a.read_buffer = some sl)
    (hmin : 0 < min len sl.length) (i : Nat) :
    receive_new s i a len =
      ({ s with rx_buffer := none }, a, Except.error ErrX.ESIZE) := by
  unfold receive_new
  rw [hrx]
  dsimp only
  rw [hrb]
  dsimp only
  rw [if_pos (by omega)]

/-- The `EINVAL` path of `receive_new`: no registered read buffer; the
taken slot buffer is dropped. -/
theorem receive_new_einval {s : St} {a : App} {rb : List Nat} {len : Nat}
    (hrx : s.rx_buffer = some rb) (hrb : a.read_buffer = none) (i : Nat) :
    receive_new s i a len =
      ({ s with rx_buffer := none }, a, Except.error ErrX.EINVAL) := by
  unfold receive_new
  rw [hrx]
  dsimp only
  rw [hrb]

end ReceiveLemmas

section Frames

/-- `send` never touches the grant list or the receive-side state. -/
theorem send_frame {s : St} {i : Nat} {a : App} {sl : List Nat} {s' : St}
    {a' : App} (h : send s i a sl = some (s', a')) :
    s'.apps = s.apps ∧ s'.rx_buffer = s.rx_buffer ∧
    s'.rx_in_progress = s.rx_in_progress ∧ s'.hw_rx = s.hw_rx := by
  rcases send_cases h with ⟨oid, _, rfl, _⟩ | ⟨_, _, rfl, _⟩ |
    ⟨buffer, _, _, _, ⟨_, rfl, _⟩ | ⟨_, rfl, _⟩⟩ <;> simp [txPost]

/-- `send_continue` never touches the grant list or the receive-side
state. -/
theorem send_continue_frame {s : St} {i : Nat} {a : App} {s' : St} {a' : App}
    {r : Except ErrX Bool} (h : send_continue s i a = some (s', a', r)) :
    s'.apps = s.apps ∧ s'.rx_buffer = s.rx_buffer ∧
    s'.rx_in_progress = s.rx_in_progress ∧ s'.hw_rx = s.hw_rx := by
  rcases send_continue_cases h with ⟨_, rfl, _⟩ | ⟨_, _, rfl, _⟩ |
    ⟨sl, _, _, _, hs⟩
  · exact ⟨rfl, rfl, rfl, rfl⟩
  · exact ⟨rfl, rfl, rfl, rfl⟩
  · exact send_frame hs

/-- The arbitration loop never touches the receive-side state. -/
theorem arbitrate_rx_frame {ids : List Nat} {s s' : St}
    (h : arbitrate s ids = some s') :
    s'.rx_buffer = s.rx_buffer ∧ s'.rx_in_progress = s.rx_in_progress ∧
    s'.hw_rx = s.hw_rx := by
  induction ids generalizing s with
  | nil =>
    unfold arbitrate at h
    simp only [Option.some.injEq] at h
    rw [← h]
    exact ⟨rfl, rfl, rfl⟩
  | cons i rest ih =>
    unfold arbitrate at h
    dsimp only at h
    split at h
    next hp =>
      split at h
      next => exact absurd h (by simp)
      next s2 app2 more hsc =>
        obtain ⟨_, h2, h3, h4⟩ := send_continue_frame hsc
        split at h
        next =>
          simp only [Option.some.injEq] at h
          rw [← h]
          exact ⟨h2, h3, h4⟩
        next =>
          obtain ⟨g2, g3, g4⟩ := ih h
          refine ⟨?_, ?_, ?_⟩ <;> simp [g2, g3, g4, h2, h3, h4]
      next s2 app2 e hsc =>
        obtain ⟨_, h2, h3, h4⟩ := send_continue_frame hsc
        obtain ⟨g2, g3, g4⟩ := ih h
        constructor
        · rw [g2]; split <;> simp [h2]
        constructor
        · rw [g3]; split <;> simp [h3]
        · rw [g4]; split <;> simp [h4]
    next hp => exact ih h

/-- `completeOwner` never touches the receive-side state. -/
theorem completeOwner_rx_frame {s : St} {appid : Nat} {s' : St}
    (h : completeOwner s appid = some s') :
    s'.rx_buffer = s.rx_buffer ∧ s'.rx_in_progress = s.rx_in_progress ∧
    s'.hw_rx = s.hw_rx := by
  unfold completeOwner at h
  dsimp only at h
  split at h
  next => exact absurd h (by simp)
  next s2 app2 more hsc =>
    obtain ⟨_, h2, h3, h4⟩ := send_continue_frame hsc
    split at h
    next =>
      simp only [Option.some.injEq] at h
      rw [← h]
      exact ⟨h2, h3, h4⟩
    next =>
      simp only [Option.some.injEq] at h
      rw [← h]
      refine ⟨?_, ?_, ?_⟩ <;> split <;> simp [h2, h3, h4]
  next s2 app2 e hsc =>
    obtain ⟨_, h2, h3, h4⟩ := send_continue_frame hsc
    simp only [Option.some.injEq] at h
    rw [← h]
    refine ⟨?_, ?_, ?_⟩ <;> split <;> simp [h2, h3, h4]

/-- `transmitted_buffer` never touches the receive-side state. -/
theorem transmitted_buffer_rx_frame {s : St} {buf : List Nat} {s' : St}
    (h : transmitted_buffer s buf = some s') :
    s'.rx_buffer = s.rx_buffer ∧ s'.rx_in_progress = s.rx_in_progress ∧
    s'.hw_rx = s.hw_rx := by
  unfold transmitted_buffer at h
  dsimp only at h
  split at h
  next hAfter => exact absurd h (by simp)
  next s4 hAfter =>
    have f : s4.rx_buffer = s.rx_buffer ∧
        s4.rx_in_progress = s.rx_in_progress ∧ s4.hw_rx = s.hw_rx := by
      rcases hin : s.tx_in_progress with _ | appid <;> rw [hin] at hAfter
      · simp only [Option.some.injEq] at hAfter
        rw [← hAfter]
        exact ⟨rfl, rfl, rfl⟩
      · obtain ⟨f2, f3, f4⟩ := completeOwner_rx_frame hAfter
        exact ⟨f2, f3, f4⟩
    split at h
    · obtain ⟨g2, g3, g4⟩ := arbitrate_rx_frame h
      exact ⟨g2.trans f.1, g3.trans f.2.1, g4.trans f.2.2⟩
    · simp only [Option.some.injEq] at h
      rw [← h]
      exact f

/-- `received_buffer` never touches the transmit-side state, always refills
the receive slot cell, and leaves `hw_rx` alone. -/
theorem received_buffer_frame (s : St) (buf : List Nat) (rx_len : Nat)
    (err : UartErr) :
    (received_buffer s buf rx_len err).tx_buffer = s.tx_buffer ∧
    (received_buffer s buf rx_len err).hw_tx = s.hw_tx ∧
    (received_buffer s buf rx_len err).tx_in_progress = s.tx_in_progress ∧
    (received_buffer s buf rx_len err).rx_buffer = some buf ∧
    (received_buffer s buf rx_len err).hw_rx = s.hw_rx := by
  unfold received_buffer
  dsimp only
  repeat' (first | split | dsimp only)
  all_goals exact ⟨rfl, rfl, rfl, rfl, rfl⟩

/-- `allowFn` only changes the grant list. -/
theorem allowFn_frame (s : St) (a n : Nat) (sl : Option (List Nat)) :
    (allowFn s a n sl).1.tx_buffer = s.tx_buffer ∧
    (allowFn s a n sl).1.hw_tx = s.hw_tx ∧
    (allowFn s a n sl).1.tx_in_progress = s.tx_in_progress ∧
    (allowFn s a n sl).1.rx_buffer = s.rx_buffer ∧
    (allowFn s a n sl).1.hw_rx = s.hw_rx ∧
    (allowFn s a n sl).1.rx_in_progress = s.rx_in_progress := by
  unfold allowFn
  split <;> exact ⟨rfl, rfl, rfl, rfl, rfl, rfl⟩

/-- `subscribeFn` only changes the grant list. -/
theorem subscribeFn_frame (s : St) (a n : Nat) (cb : Bool) :
    (subscribeFn s a n cb).1.tx_buffer = s.tx_buffer ∧
    (subscribeFn s a n cb).1.hw_tx = s.hw_tx ∧
    (subscribeFn s a n cb).1.tx_in_progress = s.tx_in_progress ∧
    (subscribeFn s a n cb).1.rx_buffer = s.rx_buffer ∧
    (subscribeFn s a n cb).1.hw_rx = s.hw_rx ∧
    (subscribeFn s a n cb).1.rx_in_progress = s.rx_in_progress := by
  unfold subscribeFn
  split <;> exact ⟨rfl, rfl, rfl, rfl, rfl, rfl⟩

end Frames

section SlotInvariant

/-- `send` preserves the transmit-slot two-state discipline. -/
theorem send_pres_tx {s : St} {i : Nat} {a : App} {sl : List Nat} {s' : St}
    {a' : App} (htx : TxTwoState s) (h : send s i a sl = some (s', a')) :
    TxTwoState s' := by
  simp only [TxTwoState] at htx ⊢
  rcases send_cases h with ⟨oid, _, rfl, _⟩ | ⟨hin, hbuf, rfl, _⟩ |
    ⟨buffer, hin, hbuf, _, ⟨_, rfl, _⟩ | ⟨_, rfl, _⟩⟩
  · exact htx
  · have hhw : s.hw_tx ≠ none := by
      intro hn
      exact (htx.1.mpr hn) hbuf
    constructor
    · simp only []
      rw [hbuf]
      simp [hhw]
    · intro _
      simp
  · constructor
    · simp [txPost]
    · intro _
      simp [txPost]
  · constructor
    · simp [txPost]
    · intro _
      simp [txPost]

/-- `send_continue` preserves the transmit-slot two-state discipline. -/
theorem send_continue_pres_tx {s : St} {i : Nat} {a : App} {s' : St}
    {a' : App} {r : Except ErrX Bool} (htx : TxTwoState s)
    (h : send_continue s i a = some (s', a', r)) : TxTwoState s' := by
  rcases send_continue_cases h with ⟨_, rfl, _⟩ | ⟨_, _, rfl, _⟩ |
    ⟨sl, _, _, _, hs⟩
  · exact htx
  · exact htx
  · exact send_pres_tx htx hs

/-- Updating only the grant list or the event log keeps `TxTwoState`. -/
theorem txTwoState_apps {s : St} (l : List (Nat × App)) (ev : List Event)
    (htx : TxTwoState s) :
    TxTwoState { s with apps := l, events := ev } := by
  simpa only [TxTwoState] using htx

/-- The arbitration loop preserves the transmit-slot two-state
discipline. -/
theorem arbitrate_pres_tx {ids : List Nat} {s s' : St} (htx : TxTwoState s)
    (h : arbitrate s ids = some s') : TxTwoState s' := by
  induction ids generalizing s with
  | nil =>
    unfold arbitrate at h
    simp only [Option.some.injEq] at h
    rw [← h]
    exact htx
  | cons i rest ih =>
    unfold arbitrate at h
    dsimp only at h
    split at h
    next hp =>
      split at h
      next => exact absurd h (by simp)
      next s2 app2 more hsc =>
        have h2 := send_continue_pres_tx htx hsc
        split at h
        next =>
          simp only [Option.some.injEq] at h
          rw [← h]
          exact txTwoState_apps _ _ h2
        next => exact ih (txTwoState_apps _ _ h2) h
      next s2 app2 e hsc =>
        have h2 := send_continue_pres_tx htx hsc
        refine ih ?_ h
        split
        · exact txTwoState_apps _ _ h2
        · exact txTwoState_apps _ _ h2
    next hp => exact ih htx h

/-- `completeOwner` establishes the two-state discipline when called with
the slot buffer just returned and the hardware idle. -/
theorem completeOwner_pres_tx {s : St} {appid : Nat} {s' : St}
    (hhw : s.hw_tx = none) (hbuf : s.tx_buffer ≠ none)
    (h : completeOwner s appid = some s') : TxTwoState s' := by
  unfold completeOwner at h
  dsimp only at h
  have h1 : TxTwoState { s with tx_in_progress := none, apps := ensureApp s.apps appid } := by
    constructor
    · exact ⟨fun _ => hhw, fun _ => hbuf⟩
    · exact fun hn => absurd hhw hn
  split at h
  next => exact absurd h (by simp)
  next s2 app2 more hsc =>
    have h2 := send_continue_pres_tx h1 hsc
    split at h
    next =>
      simp only [Option.some.injEq] at h
      rw [← h]
      exact txTwoState_apps _ _ h2
    next =>
      simp only [Option.some.injEq] at h
      rw [← h]
      split
      · exact txTwoState_apps _ _ h2
      · exact txTwoState_apps _ _ h2
  next s2 app2 e hsc =>
    have h2 := send_continue_pres_tx h1 hsc
    simp only [Option.some.injEq] at h
    rw [← h]
    split
    · exact txTwoState_apps _ _ h2
    · exact txTwoState_apps _ _ h2

/-- `transmitted_buffer` establishes the two-state discipline whenever the
hardware transmit side is idle on entry. -/
theorem transmitted_buffer_pres_tx {s : St} {buf : List Nat} {s' : St}
    (hhw : s.hw_tx = none) (h : transmitted_buffer s buf = some s') :
    TxTwoState s' := by
  unfold transmitted_buffer at h
  dsimp only at h
  split at h
  next hAfter => exact absurd h (by simp)
  next s4 hAfter =>
    have f : TxTwoState s4 := by
      rcases hin : s.tx_in_progress with _ | appid <;> rw [hin] at hAfter
      · simp only [Option.some.injEq] at hAfter
        rw [← hAfter]
        constructor
        · simp [hhw]
        · simp [hhw]
      · exact completeOwner_pres_tx (by simpa using hhw) (by simp) hAfter
    split at h
    · exact arbitrate_pres_tx f h
    · simp only [Option.some.injEq] at h
      rw [← h]
      exact f

/-- `send_new` preserves the two-state discipline and the receive frame. -/
theorem send_new_pres {s : St} {i : Nat} {a : App} {len : Nat} {s' : St}
    {a' : App} {rc : RC} (htx : TxTwoState s)
    (h : send_new s i a len = some (s', a', rc)) :
    TxTwoState s' ∧ s'.rx_buffer = s.rx_buffer ∧ s'.hw_rx = s.hw_rx ∧
    s'.rx_in_progress = s.rx_in_progress := by
  unfold send_new at h
  split at h
  next sl hwb =>
    dsimp only at h
    rcases hs : send s i { a with write_buffer := none, write_len := min len sl.length, write_remaining := min len sl.length } sl with _ | p <;>
      rw [hs] at h
    · exact absurd h (by simp)
    · simp only [Option.map_some', Option.some.injEq, Prod.mk.injEq] at h
      obtain ⟨f1, f2, f3, f4⟩ := send_frame hs
      rw [← h.1]
      exact ⟨send_pres_tx htx hs, f2, f4, f3⟩
  next hwb =>
    simp only [Option.some.injEq, Prod.mk.injEq] at h
    rw [← h.1]
    exact ⟨htx, rfl, rfl, rfl⟩

/-- Every driver step preserves the slot invariants. -/
theorem minv_step {s s' : St} {op : Op} (hm : MInv s)
    (h : step s op = .ok s') : MInv s' := by
  obtain ⟨htx, hrc⟩ := hm
  cases op with
  | opAllow a n sl =>
    simp only [step, StepRes.ok.injEq] at h
    obtain ⟨f1, f2, f3, f4, f5, f6⟩ := allowFn_frame s a n sl
    rw [← h]
    refine ⟨?_, ?_⟩
    · simp only [TxTwoState] at htx ⊢
      rw [f1, f2, f3]
      exact htx
    · simp only [RxClaimed] at hrc ⊢
      rw [f4, f5]
      exact hrc
  | opSubscribe a n cb =>
    simp only [step, StepRes.ok.injEq] at h
    obtain ⟨f1, f2, f3, f4, f5, f6⟩ := subscribeFn_frame s a n cb
    rw [← h]
    refine ⟨?_, ?_⟩
    · simp only [TxTwoState] at htx ⊢
      rw [f1, f2, f3]
      exact htx
    · simp only [RxClaimed] at hrc ⊢
      rw [f4, f5]
      exact hrc
  | opCommand a c arg =>
    simp only [step] at h
    rcases hc : command s c arg a with _ | ⟨s1, rc⟩ <;> rw [hc] at h
    · exact absurd h (by simp)
    · dsimp only at h
      simp only [StepRes.ok.injEq] at h
      unfold command at hc
      split at hc
      · simp only [Option.some.injEq, Prod.mk.injEq] at hc
        rw [← h, ← hc.1]
        exact ⟨htx, hrc⟩
      · dsimp only at hc
        rcases hs : send_new { s with apps := ensureApp s.apps a } a
            (getApp (ensureApp s.apps a) a) arg with _ | ⟨q1, q2, q3⟩ <;>
          rw [hs] at hc
        · exact absurd hc (by simp)
        · dsimp only at hc
          obtain ⟨g1, g2, g3, g4⟩ := send_new_pres
            (by simpa only [TxTwoState] using htx) hs
          simp only [Option.some.injEq, Prod.mk.injEq] at hc
          rw [← h, ← hc.1]
          refine ⟨?_, ?_⟩
          · simpa only [TxTwoState] using g1
          · simp only [RxClaimed] at hrc ⊢
            simp only [g2, g3]
            exact hrc
      · dsimp only at hc
        rcases hr : receive_new { s with apps := ensureApp s.apps a } a
            (getApp (ensureApp s.apps a) a) arg with ⟨q1, q2, q3⟩
        rw [hr] at hc
        dsimp only at hc
        simp only [Option.some.injEq, Prod.mk.injEq] at hc
        rcases receive_new_cases hr with ⟨hb, rfl, _, _⟩ |
            ⟨rb, hb, hrb, rfl, _, _⟩ | ⟨rb, sl, hb, hrb, hmin, rfl, _, _⟩ |
            ⟨rb, sl, hb, hrb, hmin, rfl, _, _⟩ <;> rw [← h, ← hc.1]
        · exact ⟨by simpa only [TxTwoState] using htx,
            by simpa only [RxClaimed] using hrc⟩
        · refine ⟨by simpa only [TxTwoState] using htx, ?_⟩
          simp only [RxClaimed]
          intro _
          simp
        · refine ⟨by simpa only [TxTwoState] using htx, ?_⟩
          simp only [RxClaimed]
          intro _
          simp
        · refine ⟨by simpa only [TxTwoState, rxPost] using htx, ?_⟩
          simp only [RxClaimed, rxPost]
          intro _
          simp
      · simp only [Option.some.injEq, Prod.mk.injEq] at hc
        rw [← h, ← hc.1]
        exact ⟨by simpa only [TxTwoState] using htx,
          by simpa only [RxClaimed] using hrc⟩
      · simp only [Option.some.injEq, Prod.mk.injEq] at hc
        rw [← h, ← hc.1]
        exact ⟨htx, hrc⟩
  | opTxComplete =>
    simp only [step] at h
    rcases hhw : s.hw_tx with _ | ⟨buf, tlen⟩ <;> rw [hhw] at h
    · exact absurd h (by simp)
    · dsimp only at h
      rcases htb : transmitted_buffer { s with hw_tx := none } buf
          with _ | s1 <;> rw [htb] at h
      · exact absurd h (by simp)
      · simp only [StepRes.ok.injEq] at h
        rw [← h]
        obtain ⟨f2, f3, f4⟩ := transmitted_buffer_rx_frame htb
        refine ⟨transmitted_buffer_pres_tx (by simp) htb, ?_⟩
        simp only [RxClaimed] at hrc ⊢
        rw [f2, f4]
        exact hrc
  | opRxComplete ret rx_len err =>
    simp only [step] at h
    rcases hhw : s.hw_rx with _ | ⟨buf, reqlen⟩ <;> rw [hhw] at h
    · exact absurd h (by simp)
    · dsimp only at h
      split at h
      · simp only [StepRes.ok.injEq] at h
        rw [← h]
        obtain ⟨f1, f2, f3, f4, f5⟩ := received_buffer_frame
          { s with hw_rx := none } ret rx_len err
        refine ⟨?_, ?_⟩
        · simp only [TxTwoState] at htx ⊢
          rw [f1, f2, f3]
          exact htx
        · simp only [RxClaimed]
          rw [f5]
          intro hn
          exact absurd rfl hn
      · exact absurd h (by simp)

/-- The slot invariants hold in every reachable state. -/
theorem minv_reach {s : St} (h : Reach s) : MInv s := by
  induction h with
  | init =>
    refine ⟨⟨by simp [init], by simp [init]⟩, ?_⟩
    simp [RxClaimed, init]
  | step hr hs ih => exact minv_step ih hs

end SlotInvariant

section RunLemmas

/-- `ensureApp` is the identity on an already-attached process. -/
theorem ensureApp_has {l : List (Nat × App)} {i : Nat}
    (h : hasApp l i = true) : ensureApp l i = l := by
  unfold ensureApp
  rw [if_pos h]

/-- Executing a list of operations preserves reachability. -/
theorem reach_runOps {s s' : St} {ops : List Op} (hr : Reach s)
    (h : runOps s ops = .ok s') : Reach s' := by
  induction ops generalizing s with
  | nil =>
    unfold runOps at h
    simp only [StepRes.ok.injEq] at h
    rw [← h]
    exact hr
  | cons op rest ih =>
    unfold runOps at h
    rcases hs : step s op with s1 | _ | _ <;> rw [hs] at h
    · exact ih (Reach.step hr hs) h
    · exact absurd h (by simp)
    · exact absurd h (by simp)

/-- `send_new` never touches the receive-side state or the grant list. -/
theorem send_new_frame {s : St} {i : Nat} {a : App} {len : Nat} {s' : St}
    {a' : App} {rc : RC} (h : send_new s i a len = some (s', a', rc)) :
    s'.rx_buffer = s.rx_buffer ∧ s'.hw_rx = s.hw_rx ∧
    s'.rx_in_progress = s.rx_in_progress ∧ s'.apps = s.apps := by
  unfold send_new at h
  split at h
  next sl hwb =>
    dsimp only at h
    rcases hs : send s i { a with write_buffer := none, write_len := min len sl.length, write_remaining := min len sl.length } sl with _ | p <;>
      rw [hs] at h
    · exact absurd h (by simp)
    · simp only [Option.map_some', Option.some.injEq, Prod.mk.injEq] at h
      obtain ⟨f1, f2, f3, f4⟩ := send_frame hs
      rw [← h.1]
      exact ⟨f2, f4, f3, f1⟩
  next hwb =>
    simp only [Option.some.injEq, Prod.mk.injEq] at h
    rw [← h.1]
    exact ⟨rfl, rfl, rfl, rfl⟩

/-- Once the receive slot is lost (neither in the cell nor with the
hardware) no step can recover it. -/
theorem rxDead_step {s s' : St} {op : Op} (hd : RxDead s)
    (h : step s op = .ok s') : RxDead s' := by
  obtain ⟨hb, hw⟩ := hd
  cases op with
  | opAllow a n sl =>
    simp only [step, StepRes.ok.injEq] at h
    obtain ⟨f1, f2, f3, f4, f5, f6⟩ := allowFn_frame s a n sl
    rw [← h]
    exact ⟨f4.trans hb, f5.trans hw⟩
  | opSubscribe a n cb =>
    simp only [step, StepRes.ok.injEq] at h
    obtain ⟨f1, f2, f3, f4, f5, f6⟩ := subscribeFn_frame s a n cb
    rw [← h]
    exact ⟨f4.trans hb, f5.trans hw⟩
  | opCommand a c arg =>
    simp only [step] at h
    rcases hc : command s c arg a with _ | ⟨s1, rc⟩ <;> rw [hc] at h
    · exact absurd h (by simp)
    · dsimp only at h
      simp only [StepRes.ok.injEq] at h
      unfold command at hc
      split at hc
      · simp only [Option.some.injEq, Prod.mk.injEq] at hc
        rw [← h, ← hc.1]
        exact ⟨hb, hw⟩
      · dsimp only at hc
        rcases hs : send_new { s with apps := ensureApp s.apps a } a
            (getApp (ensureApp s.apps a) a) arg with _ | ⟨q1, q2, q3⟩ <;>
          rw [hs] at hc
        · exact absurd hc (by simp)
        · dsimp only at hc
          obtain ⟨g1, g2, g3, g4⟩ := send_new_frame hs
          simp only [Option.some.injEq, Prod.mk.injEq] at hc
          rw [← h, ← hc.1]
          exact ⟨g1.trans hb, g2.trans hw⟩
      · dsimp only at hc
        have hr := receive_new_busy (s := { s with apps := ensureApp s.apps a })
          (by simpa using hb) a (getApp (ensureApp s.apps a) a) arg
        rw [hr] at hc
        dsimp only at hc
        simp only [Option.some.injEq, Prod.mk.injEq] at hc
        rw [← h, ← hc.1]
        exact ⟨hb, hw⟩
      · simp only [Option.some.injEq, Prod.mk.injEq] at hc
        rw [← h, ← hc.1]
        exact ⟨hb, hw⟩
      · simp only [Option.some.injEq, Prod.mk.injEq] at hc
        rw [← h, ← hc.1]
        exact ⟨hb, hw⟩
  | opTxComplete =>
    simp only [step] at h
    rcases hhw : s.hw_tx with _ | ⟨buf, tlen⟩ <;> rw [hhw] at h
    · exact absurd h (by simp)
    · dsimp only at h
      rcases htb : transmitted_buffer { s with hw_tx := none } buf
          with _ | s1 <;> rw [htb] at h
      · exact absurd h (by simp)
      · simp only [StepRes.ok.injEq] at h
        rw [← h]
        obtain ⟨f2, f3, f4⟩ := transmitted_buffer_rx_frame htb
        exact ⟨f2.trans hb, f4.trans hw⟩
  | opRxComplete ret rx_len err =>
    rw [show step s (Op.opRxComplete ret rx_len err) = StepRes.stuck by
      simp only [step]; rw [hw]] at h
    exact absurd h (by simp)

end RunLemmas

section ReceiveComplete

/-- Evaluation of `received_buffer` on a successful completion for an owner
with a registered callback and read buffer: the received bytes are copied
into the owner's buffer (bounded by its length), the registration is
consumed, one read callback is scheduled, and the slot returns to the
cell. -/
theorem received_buffer_ok {s : St} {owner : Nat} {ab : List Nat}
    (hin : s.rx_in_progress = some owner)
    (hhas : hasApp s.apps owner = true)
    (hcb : (getApp s.apps owner).read_callback = true)
    (hrb : (getApp s.apps owner).read_buffer = some ab)
    (buf : List Nat) (rx_len : Nat) :
    received_buffer s buf rx_len UartErr.none =
      { s with
          rx_in_progress := none,
          rx_buffer := some buf,
          apps := setApp s.apps owner
            { getApp s.apps owner with read_buffer := none },
          events := s.events ++
            [Event.evCopyToApp owner (copyFront ab (buf.take rx_len)),
             Event.evReadCb owner successNum rx_len] } := by
  unfold received_buffer
  dsimp only
  rw [hin]
  dsimp only
  rw [ensureApp_has hhas, hcb]
  rw [if_pos rfl]
  try dsimp only
  rw [hrb]
  try dsimp only
  rw [if_pos rfl]

end ReceiveComplete

section Claims1

/-- Claim C3 (counterexample): the receive slot can reach a state where the
slot buffer is neither in the engine's cell nor with the hardware — a
start-read that fails the (broken) size check drops the taken slot buffer —
so "each slot is in exactly one of engine-idle or in-flight-with-hardware"
is false for the receive slot. -/
theorem claim_slot_two_state_cex :
    runOps init c3ops = StepRes.ok (stOf (runOps init c3ops)) ∧
    Reach (stOf (runOps init c3ops)) ∧
    (stOf (runOps init c3ops)).rx_buffer = none ∧
    (stOf (runOps init c3ops)).hw_rx = none ∧
    ¬((stOf (runOps init c3ops)).rx_buffer ≠ none ↔
        (stOf (runOps init c3ops)).hw_rx = none) := by
  refine ⟨rfl, @reach_runOps init (stOf (runOps init c3ops)) c3ops Reach.init rfl, rfl, rfl, ?_⟩
  intro hiff
  exact hiff.mpr rfl rfl

/-- Claim C3 (amended): in every reachable state the transmit slot obeys
the two-state discipline — its buffer is in the engine's cell iff no
transmit is in flight with the hardware — and an in-flight transmit always
has a (single, since `tx_in_progress` is an `Option`) recorded owner
process. -/
theorem claim_tx_slot_two_state {s : St} (h : Reach s) :
    (s.tx_buffer ≠ none ↔ s.hw_tx = none) ∧
    (s.hw_tx ≠ none → s.tx_in_progress ≠ none) :=
  (minv_reach h).1

/-- Witness for C3: the amended invariant at the initial state. -/
theorem claim_tx_slot_two_state_witness :
    (init.tx_buffer ≠ none ↔ init.hw_tx = none) ∧
    (init.hw_tx ≠ none → init.tx_in_progress ≠ none) :=
  claim_tx_slot_two_state Reach.init

/-- Claim C4: with the receive slot present, a start-read whose effective
length `min(len, buffer length)` exceeds the slot's capacity fails with
`ESIZE` and issues no hardware call, and a start-read with no registered
read buffer fails with `EINVAL` (NoBufferRegistered) and issues no hardware
call. -/
theorem claim_read_reject :
    (∀ (s : St) (i : Nat) (a : App) (len : Nat) (rb sl : List Nat),
        s.rx_buffer = some rb → a.read_buffer = some sl →
        rb.length < min len sl.length →
        receive_new s i a len =
          ({ s with rx_buffer := none }, a, Except.error ErrX.ESIZE) ∧
        ({ s with rx_buffer := none } : St).events = s.events ∧
        ({ s with rx_buffer := none } : St).hw_rx = s.hw_rx) ∧
    (∀ (s : St) (i : Nat) (a : App) (len : Nat) (rb : List Nat),
        s.rx_buffer = some rb → a.read_buffer = none →
        receive_new s i a len =
          ({ s with rx_buffer := none }, a, Except.error ErrX.EINVAL) ∧
        ({ s with rx_buffer := none } : St).events = s.events ∧
        ({ s with rx_buffer := none } : St).hw_rx = s.hw_rx) := by
  constructor
  · intro s i a len rb sl hrx hrb hsz
    exact ⟨receive_new_esize hrx hrb (by omega) i, rfl, rfl⟩
  · intro s i a len rb hrx hrb
    exact ⟨receive_new_einval hrx hrb i, rfl, rfl⟩

/-- Witness for C4: a 64-byte slot rejects an 80-byte read with `ESIZE`,
and a process with no read buffer gets `EINVAL`. -/
theorem claim_read_reject_witness :
    (receive_new init 0
        { appDefault with read_buffer := some (List.replicate 80 0) } 80 =
      ({ init with rx_buffer := none },
       { appDefault with read_buffer := some (List.replicate 80 0) },
       Except.error ErrX.ESIZE)) ∧
    (receive_new init 1 appDefault 10 =
      ({ init with rx_buffer := none }, appDefault,
       Except.error ErrX.EINVAL)) :=
  ⟨(claim_read_reject.1 init 0 _ 80 (List.replicate 64 0)
      (List.replicate 80 0) rfl rfl (by decide)).1,
   (claim_read_reject.2 init 1 appDefault 10 (List.replicate 64 0)
      rfl rfl).1⟩

/-- Claim C5 (code bug): a start-read that per the spec must succeed — read
buffer registered, no receive outstanding, `min(len, buffer length)` within
the 64-byte slot capacity — is rejected with `ESIZE`, because
`receive_new` compares `read_len` against `self.rx_buffer.map_or(0, ...)`
after having just taken the buffer out of that very cell (its own comment
says "Note: We have ensured above that rx_buffer is present"), so the
capacity compared against is 0 and every nonzero-length read fails. -/
theorem claim_read_size_bug :
    runOps init c5ops = StepRes.ok (stOf (runOps init c5ops)) ∧
    (stOf (runOps init c5ops)).rx_buffer = some (List.replicate 64 0) ∧
    (getApp (stOf (runOps init c5ops)).apps 0).read_buffer =
      some (List.replicate 10 0) ∧
    min 5 (List.replicate 10 0).length ≤ (List.replicate 64 0).length ∧
    (command (stOf (runOps init c5ops)) 2 5 0).map Prod.snd =
      some (Except.error ErrX.ESIZE) :=
  ⟨rfl, rfl, rfl, by decide, rfl⟩

/-- Claim C7: a start-write by a process with a registered write buffer
sets `write_len = write_remaining = min(len, buffer length)` and hands the
buffer to `send`; with no registered write buffer it fails with `EBUSY`. -/
theorem claim_send_new_contract :
    (∀ (s : St) (i : Nat) (a : App) (len : Nat) (sl : List Nat),
        a.write_buffer = some sl →
        send_new s i a len =
          (send s i
            { a with
                write_buffer := none,
                write_len := min len sl.length,
                write_remaining := min len sl.length } sl).map
            (fun p => (p.1, p.2, Except.ok ()))) ∧
    (∀ (s : St) (i : Nat) (a : App) (len : Nat),
        a.write_buffer = none →
        send_new s i a len = some (s, a, Except.error ErrX.EBUSY)) := by
  constructor
  · intro s i a len sl hwb
    unfold send_new
    rw [hwb]
  · intro s i a len hwb
    unfold send_new
    rw [hwb]

/-- Witness for C7: both branches at concrete inputs. -/
theorem claim_send_new_contract_witness :
    (send_new init 0 { appDefault with write_buffer := some [1, 2, 3] } 2 =
      (send init 0
        { appDefault with
            write_buffer := none,
            write_len := min 2 [1, 2, 3].length,
            write_remaining := min 2 [1, 2, 3].length } [1, 2, 3]).map
        (fun p => (p.1, p.2, Except.ok ()))) ∧
    (send_new init 0 appDefault 5 =
      some (init, appDefault, Except.error ErrX.EBUSY)) :=
  ⟨claim_send_new_contract.1 init 0 _ 2 [1, 2, 3] rfl,
   claim_send_new_contract.2 init 0 appDefault 5 rfl⟩

/-- Claim C9: every start-read on which `receive_new` errors after taking
the slot buffer (the `ESIZE` and `EINVAL` paths) leaves the slot buffer
lost — not returned to the cell and not with the hardware — no step can
recover a lost slot, and in any such state every start-read by any process
fails with `EBUSY`. -/
theorem claim_rx_error_leak :
    (∀ (s : St) (i : Nat) (a : App) (len : Nat) (rb : List Nat),
        s.rx_buffer = some rb → s.hw_rx = none →
        (a.read_buffer = none ∨
         (∃ sl, a.read_buffer = some sl ∧ 0 < min len sl.length)) →
        ∃ e, receive_new s i a len =
            ({ s with rx_buffer := none }, a, Except.error e) ∧
          RxDead { s with rx_buffer := none }) ∧
    (∀ (s s' : St) (op : Op), RxDead s → step s op = .ok s' → RxDead s') ∧
    (∀ (s : St) (i : Nat) (a : App) (len : Nat), RxDead s →
        receive_new s i a len = (s, a, Except.error ErrX.EBUSY)) := by
  refine ⟨?_, ?_, ?_⟩
  · intro s i a len rb hrx hhw hcase
    rcases hcase with hrb | ⟨sl, hrb, hmin⟩
    · exact ⟨ErrX.EINVAL, receive_new_einval hrx hrb i,
        ⟨rfl, by simpa using hhw⟩⟩
    · exact ⟨ErrX.ESIZE, receive_new_esize hrx hrb hmin i,
        ⟨rfl, by simpa using hhw⟩⟩
  · intro s s' op hd h
    exact rxDead_step hd h
  · intro s i a len hd
    exact receive_new_busy hd.1 i a len

/-- Witness for C9: the leak at a concrete state, its absorption across a
concrete step, and the resulting permanent `EBUSY`. -/
theorem claim_rx_error_leak_witness :
    (∃ e, receive_new init 0 appDefault 3 =
        ({ init with rx_buffer := none }, appDefault, Except.error e) ∧
      RxDead { init with rx_buffer := none }) ∧
    RxDead { init with rx_buffer := none } ∧
    (receive_new { init with rx_buffer := none } 1 appDefault 7 =
      ({ init with rx_buffer := none }, appDefault,
       Except.error ErrX.EBUSY)) := by
  refine ⟨claim_rx_error_leak.1 init 0 appDefault 3 (List.replicate 64 0)
      rfl rfl (Or.inl rfl), ?_, ?_⟩
  · exact claim_rx_error_leak.2.1 { init with rx_buffer := none }
      { init with rx_buffer := none } (Op.opCommand 0 0 0) ⟨rfl, rfl⟩ rfl
  · exact claim_rx_error_leak.2.2 { init with rx_buffer := none } 1
      appDefault 7 ⟨rfl, rfl⟩

end Claims1

section Claims2

/-- Claim C6: while a receive is outstanding (the hardware holds the
receive slot), every start-read by any process fails with `EBUSY`; and the
outstanding receive still completes normally — on hardware completion the
received bytes are copied into the owner's registered buffer, bounded by
that buffer's length, and the owner's read callback is invoked exactly
once. -/
theorem claim_read_busy_complete :
    (∀ (s : St), Reach s → s.hw_rx ≠ none →
        ∀ (i : Nat) (a : App) (len : Nat),
          receive_new s i a len = (s, a, Except.error ErrX.EBUSY)) ∧
    (∀ (s : St) (owner : Nat) (rb ret ab : List Nat) (reqlen rx_len : Nat),
        s.hw_rx = some (rb, reqlen) → s.rx_in_progress = some owner →
        hasApp s.apps owner = true →
        (getApp s.apps owner).read_callback = true →
        (getApp s.apps owner).read_buffer = some ab →
        ret.length = rb.length → rx_len ≤ rb.length →
        ∃ s', step s (Op.opRxComplete ret rx_len UartErr.none) = .ok s' ∧
          s'.events = s.events ++
            [Event.evCopyToApp owner (copyFront ab (ret.take rx_len)),
             Event.evReadCb owner successNum rx_len] ∧
          (copyFront ab (ret.take rx_len)).length = ab.length ∧
          s'.rx_in_progress = none ∧ s'.rx_buffer = some ret) := by
  constructor
  · intro s hr hhw i a len
    exact receive_new_busy ((minv_reach hr).2 hhw) i a len
  · intro s owner rb ret ab reqlen rx_len hhw hin hhas hcb hrb hlen hle
    have hrw := received_buffer_ok (s := { s with hw_rx := none })
      hin hhas hcb hrb ret rx_len
    refine ⟨received_buffer { s with hw_rx := none } ret rx_len UartErr.none,
      ?_, ?_, copyFront_length ab (ret.take rx_len), ?_, ?_⟩
    · simp only [step]
      rw [hhw]
      dsimp only
      rw [if_pos ⟨hlen, hle⟩]
    · rw [hrw]
    · rw [hrw]
    · rw [hrw]

/-- Witness for C6: with a zero-length receive in flight for process 0, a
start-read by process 5 is `EBUSY`, and the in-flight receive completes
with a copy into process 0's 3-byte buffer and exactly one read
callback. -/
theorem claim_read_busy_complete_witness :
    (receive_new (stOf (runOps init c6ops)) 5 appDefault 7 =
      (stOf (runOps init c6ops), appDefault, Except.error ErrX.EBUSY)) ∧
    (∃ s', step (stOf (runOps init c6ops))
          (Op.opRxComplete (List.replicate 64 9) 2 UartErr.none) = .ok s' ∧
        s'.events = (stOf (runOps init c6ops)).events ++
          [Event.evCopyToApp 0
            (copyFront [1, 2, 3] ((List.replicate 64 9).take 2)),
           Event.evReadCb 0 successNum 2] ∧
        (copyFront [1, 2, 3] ((List.replicate 64 9).take 2)).length =
          ([1, 2, 3] : List Nat).length ∧
        s'.rx_in_progress = none ∧
        s'.rx_buffer = some (List.replicate 64 9)) := by
  constructor
  · exact claim_read_busy_complete.1 _
      (@reach_runOps init (stOf (runOps init c6ops)) c6ops Reach.init rfl)
      (by decide) 5 appDefault 7
  · exact claim_read_busy_complete.2 _ 0 (List.replicate 64 0)
      (List.replicate 64 9) [1, 2, 3] 0 2 rfl rfl rfl rfl rfl
      (by decide) (by decide)

end Claims2

section Claims3

/-- Claim C2: when a transmit completes and the finishing process A has no
further chunk, the engine scans processes in attachment order and starts
the first pending one: with A (process 0) finishing and B (1), C (2) both
pending, exactly one new transaction starts — B's buffer is copied and
handed to the hardware, B's pending flag is cleared, and C's entry
(pending flag included) is untouched. -/
theorem claim_arbitration_order (dB dC slot : List Nat)
    (wA wB wC clen : Nat) (ev : List Event) (hslot : slot.length = 64)
    (hBr : 0 < dB.length) (hBle : dB.length ≤ 64) :
    ∃ s', step (abcState (mkW true none wA 0 false)
          (mkW true (some dB) wB dB.length true)
          (mkW true (some dC) wC dC.length true) slot clen ev)
        Op.opTxComplete = StepRes.ok s' ∧
      s'.tx_in_progress = some 1 ∧
      (getApp s'.apps 1).pending_write = false ∧
      getApp s'.apps 2 = mkW true (some dC) wC dC.length true ∧
      s'.hw_tx = some (copyFront slot dB, dB.length) ∧
      s'.events = ev ++ [Event.evWriteCb 0 wA,
        Event.evTransmit (copyFront slot dB) dB.length] := by
  have hncap : ¬(64 < dB.length) := by omega
  refine ⟨{ apps := [(0, mkW true none 0 0 false), (1, mkW true none wB 0 false), (2, mkW true (some dC) wC dC.length true)], tx_in_progress := some 1, tx_buffer := none, rx_in_progress := none, rx_buffer := some (List.replicate 64 0), hw_tx := some (copyFront slot dB, dB.length), hw_rx := none, events := ev ++ [Event.evWriteCb 0 wA, Event.evTransmit (copyFront slot dB) dB.length] }, ?_, rfl, rfl, rfl, rfl, rfl⟩
  simp [step, abcState, transmitted_buffer, completeOwner, arbitrate,
    send_continue, send, getApp, setApp, hasApp, ensureApp, mkW, List.map,
    hslot, hncap, hBr, Nat.lt_irrefl, Nat.sub_self, List.drop_zero]

/-- Witness for C2: the arbitration scenario at concrete buffers. -/
theorem claim_arbitration_order_witness :
    ∃ s', step (abcState (mkW true none 5 0 false)
          (mkW true (some [1, 2]) 2 ([1, 2] : List Nat).length true)
          (mkW true (some [3]) 1 ([3] : List Nat).length true)
          (List.replicate 64 0) 5 []) Op.opTxComplete = StepRes.ok s' ∧
      s'.tx_in_progress = some 1 ∧
      (getApp s'.apps 1).pending_write = false ∧
      getApp s'.apps 2 = mkW true (some [3]) 1 ([3] : List Nat).length true ∧
      s'.hw_tx = some (copyFront (List.replicate 64 0) [1, 2],
        ([1, 2] : List Nat).length) ∧
      s'.events = [] ++ [Event.evWriteCb 0 5,
        Event.evTransmit (copyFront (List.replicate 64 0) [1, 2])
          ([1, 2] : List Nat).length] :=
  claim_arbitration_order [1, 2] [3] (List.replicate 64 0) 5 2 1 5 []
    (by decide) (by decide) (by decide)

end Claims3

section Chunking

/-- `restChunks` of a positive remainder unfolds one chunk. -/
theorem restChunks_pos {k : Nat} (hk : k ≠ 0) :
    restChunks k = min k 64 :: restChunks (k - 64) := by
  rw [restChunks, if_neg hk, chunks_cons]

/-- A transmit completion with nothing left to send fires the write
callback once and leaves the engine idle. -/
theorem step_mid_done (slot : List Nat) (w clen : Nat) (ev : List Event) :
    step (midSt slot none w 0 clen ev) Op.opTxComplete =
      StepRes.ok { apps := [(0, mkW true none 0 0 false)], tx_in_progress := none, tx_buffer := some slot, rx_in_progress := none, rx_buffer := some (List.replicate 64 0), hw_tx := none, hw_rx := none, events := ev ++ [Event.evWriteCb 0 w] } := by
  simp [step, midSt, transmitted_buffer, completeOwner, arbitrate,
    send_continue, send, getApp, setApp, hasApp, ensureApp, mkW, List.map]

/-- A transmit completion with `k > 0` bytes left posts the next chunk:
the last `k` bytes of `data` are copied into the returned slot (clipped to
its 64-byte capacity) and handed back to the hardware. -/
theorem step_mid_more (data slot : List Nat) (w k clen : Nat)
    (ev : List Event) (hk : 0 < k) (hkle : k ≤ data.length)
    (hslot : slot.length = 64) :
    step (midSt slot (some data) w k clen ev) Op.opTxComplete =
      StepRes.ok (midSt (copyFront slot (data.drop (data.length - k)))
        (if 64 < k then some data else none) w (k - 64) (min k 64)
        (ev ++ [Event.evTransmit
          (copyFront slot (data.drop (data.length - k))) (min k 64)])) := by
  have hg : ¬(data.length < k) := by omega
  by_cases hbig : 64 < k
  · have hmin : min k 64 = 64 := by omega
    simp [step, midSt, transmitted_buffer, completeOwner, arbitrate,
      send_continue, send, getApp, setApp, hasApp, ensureApp, mkW,
      List.map, hk, hg, hslot, hbig, hmin]
  · have hmin : min k 64 = k := by omega
    have hz : k - 64 = 0 := by omega
    simp [step, midSt, transmitted_buffer, completeOwner, arbitrate,
      send_continue, send, getApp, setApp, hasApp, ensureApp, mkW,
      List.map, hk, hg, hslot, hbig, hmin, hz]

/-- Driving the in-flight state with transmit completions finishes the
transaction: the further chunk lengths are `restChunks k` and exactly one
write callback reporting `w` follows them. -/
theorem drive_mid (k : Nat) :
    ∀ (data slot : List Nat) (w clen : Nat) (ev : List Event),
      k ≤ data.length → slot.length = 64 →
      ∃ (n : Nat) (ts : List Event) (s' : St),
        driveTx (midSt slot (if k = 0 then none else some data) w k clen ev)
            n = StepRes.ok s' ∧
        s'.events = ev ++ ts ++ [Event.evWriteCb 0 w] ∧
        (∀ e ∈ ts, ∃ c l, e = Event.evTransmit c l) ∧
        ts.map txLen = restChunks k ∧
        s'.hw_tx = none ∧ s'.tx_in_progress = none ∧
        s'.tx_buffer ≠ none := by
  induction k using Nat.strong_induction_on with
  | _ k ih =>
    intro data slot w clen ev hkle hslot
    by_cases hk0 : k = 0
    · subst hk0
      have hst := step_mid_done slot w clen ev
      refine ⟨1, [], { apps := [(0, mkW true none 0 0 false)], tx_in_progress := none, tx_buffer := some slot, rx_in_progress := none, rx_buffer := some (List.replicate 64 0), hw_tx := none, hw_rx := none, events := ev ++ [Event.evWriteCb 0 w] }, ?_, ?_, ?_, ?_, rfl, rfl, ?_⟩
      · simp only [if_pos rfl]
        simp [driveTx, hst]
      · simp
      · intro e he
        simp at he
      · simp [restChunks]
      · simp
    · have hst := step_mid_more data slot w k clen ev (by omega) hkle hslot
      have hwb : (if 64 < k then some data else (none : Option (List Nat))) =
          (if k - 64 = 0 then none else some data) := by
        by_cases hbig : 64 < k
        · rw [if_pos hbig, if_neg (by omega)]
        · rw [if_neg hbig, if_pos (by omega)]
      rw [hwb] at hst
      obtain ⟨n', ts', s', hdrive, hev, hts, hmap, hhw, hin, hbuf⟩ :=
        ih (k - 64) (by omega) data
          (copyFront slot (data.drop (data.length - k))) w (min k 64)
          (ev ++ [Event.evTransmit
            (copyFront slot (data.drop (data.length - k))) (min k 64)])
          (by omega) (by rw [copyFront_length]; exact hslot)
      refine ⟨n' + 1,
        Event.evTransmit (copyFront slot (data.drop (data.length - k)))
          (min k 64) :: ts', s', ?_, ?_, ?_, ?_, hhw, hin, hbuf⟩
      · rw [if_neg hk0]
        simp only [driveTx]
        rw [hst]
        exact hdrive
      · rw [hev]
        simp
      · intro e he
        rw [List.mem_cons] at he
        rcases he with rfl | he
        · exact ⟨_, _, rfl⟩
        · exact hts e he
      · simp only [List.map_cons, hmap, txLen]
        rw [restChunks_pos hk0]

/-- Evaluation of the setup run: register a write buffer and a callback
for process 0, then start a write of `len` bytes; the engine posts the
first chunk and enters the in-flight state with
`write_len = min(len, buffer length)`. -/
theorem c1_setup (data : List Nat) (len : Nat) :
    runOps init [Op.opAllow 0 1 (some data), Op.opSubscribe 0 1 true,
        Op.opCommand 0 1 len] =
      StepRes.ok (midSt
        (copyFront (List.replicate 64 0)
          (data.drop (data.length - min len data.length)))
        (if min len data.length - 64 = 0 then none else some data)
        (min len data.length) (min len data.length - 64)
        (min (min len data.length) 64)
        [Event.evTransmit
          (copyFront (List.replicate 64 0)
            (data.drop (data.length - min len data.length)))
          (min (min len data.length) 64)]) := by
  have hg : ¬(data.length < min len data.length) := by omega
  by_cases hbig : 64 < min len data.length
  · have h1 : min (min len data.length) 64 = 64 := by omega
    have h2 : ¬(min len data.length - 64 = 0) := by omega
    simp [runOps, step, allowFn, subscribeFn, command, send_new, send,
      midSt, mkW, getApp, setApp, hasApp, ensureApp, init, appDefault,
      hg, hbig, h1, h2]
  · have h1 : min (min len data.length) 64 = min len data.length := by omega
    have h2 : min len data.length - 64 = 0 := by omega
    simp [runOps, step, allowFn, subscribeFn, command, send_new, send,
      midSt, mkW, getApp, setApp, hasApp, ensureApp, init, appDefault,
      hg, hbig, h1, h2]

/-- Claim C1: for a process with a registered write buffer longer than the
64-byte transmit slot, a start-write of any length `len` produces a run of
hardware transmit calls whose chunk lengths are `chunks (min len |buf|)` —
summing to `write_len = min(len, buffer length)` — followed by exactly one
write callback reporting `write_len`; in particular `chunks 200 = [64, 64,
64, 8]`. -/
theorem claim_write_chunking :
    (∀ (data : List Nat) (len : Nat), 64 < data.length →
      ∃ (s0 : St) (n : Nat) (ts : List Event) (s' : St),
        runOps init [Op.opAllow 0 1 (some data), Op.opSubscribe 0 1 true,
            Op.opCommand 0 1 len] = StepRes.ok s0 ∧
        driveTx s0 n = StepRes.ok s' ∧
        s'.events = ts ++ [Event.evWriteCb 0 (min len data.length)] ∧
        (∀ e ∈ ts, ∃ c l, e = Event.evTransmit c l) ∧
        ts.map txLen = chunks (min len data.length) ∧
        (chunks (min len data.length)).sum = min len data.length ∧
        s'.hw_tx = none ∧ s'.tx_in_progress = none) ∧
    chunks 200 = [64, 64, 64, 8] := by
  constructor
  · intro data len hlen
    obtain ⟨n, ts', s', hdrive, hev, hts, hmap, hhw, hin, _⟩ :=
      drive_mid (min len data.length - 64) data
        (copyFront (List.replicate 64 0)
          (data.drop (data.length - min len data.length)))
        (min len data.length) (min (min len data.length) 64)
        [Event.evTransmit
          (copyFront (List.replicate 64 0)
            (data.drop (data.length - min len data.length)))
          (min (min len data.length) 64)]
        (by omega) (by rw [copyFront_length]; simp)
    refine ⟨_, n, Event.evTransmit
        (copyFront (List.replicate 64 0)
          (data.drop (data.length - min len data.length)))
        (min (min len data.length) 64) :: ts', s',
      c1_setup data len, hdrive, ?_, ?_, ?_, chunks_sum _, hhw, hin⟩
    · rw [hev]
      simp
    · intro e he
      rw [List.mem_cons] at he
      rcases he with rfl | he
      · exact ⟨_, _, rfl⟩
      · exact hts e he
    · simp only [List.map_cons, hmap, txLen]
      rw [chunks_cons]
  · simp [chunks]

/-- Witness for C1: the 200-byte scenario. -/
theorem claim_write_chunking_witness :
    64 < (List.replicate 200 7).length ∧
    (∃ (s0 : St) (n : Nat) (ts : List Event) (s' : St),
      runOps init [Op.opAllow 0 1 (some (List.replicate 200 7)),
          Op.opSubscribe 0 1 true, Op.opCommand 0 1 200] = StepRes.ok s0 ∧
      driveTx s0 n = StepRes.ok s' ∧
      s'.events = ts ++
        [Event.evWriteCb 0 (min 200 (List.replicate 200 7).length)] ∧
      (∀ e ∈ ts, ∃ c l, e = Event.evTransmit c l) ∧
      ts.map txLen = chunks (min 200 (List.replicate 200 7).length) ∧
      (chunks (min 200 (List.replicate 200 7).length)).sum =
        min 200 (List.replicate 200 7).length ∧
      s'.hw_tx = none ∧ s'.tx_in_progress = none) :=
  ⟨by simp only [List.length_replicate]; omega,
   claim_write_chunking.1 (List.replicate 200 7) 200
     (by simp only [List.length_replicate]; omega)⟩

end Chunking

section Claims4

/-- Claim C8 (code bug): a zero-length start-write accepted while the
transmit slot is busy is silently dropped.  Process 1's `command(1, 0)`
returns success (the request is accepted and marked pending), but when
process 0's transmission completes, arbitration clears process 1's pending
flag, `send_continue` reports the transaction finished without scheduling
any callback, and the system goes fully quiescent (no hardware operation in
flight, so no completion event can ever fire again): process 1's registered
write callback is never invoked for its accepted request — the claim's
"exactly one callback per accepted request, never zero" is violated. -/
theorem claim_lost_zero_len_callback :
    runOps init c8ops = StepRes.ok c8s4 ∧
    command c8s4 1 0 1 = some (c8s5, Except.ok ()) ∧
    step c8s5 Op.opTxComplete = StepRes.ok c8s6 ∧
    (getApp c8s6.apps 1).write_callback = true ∧
    (getApp c8s6.apps 1).pending_write = false ∧
    c8s6.events.filter (fun e => match e with
      | Event.evWriteCb 1 _ => true
      | _ => false) = [] ∧
    c8s6.hw_tx = none ∧ c8s6.hw_rx = none ∧
    step c8s6 Op.opTxComplete = StepRes.stuck ∧
    (∀ (ret : List Nat) (rx_len : Nat) (err : UartErr),
      step c8s6 (Op.opRxComplete ret rx_len err) = StepRes.stuck) := by
  refine ⟨rfl, rfl, rfl, rfl, rfl, rfl, rfl, rfl, rfl, ?_⟩
  intro ret rx_len err
  rfl

/-- Claim C10 (counterexample): after a 65-byte write posts its first
64-byte chunk (1 byte retained, buffer kept), an `allow` replaces the write
buffer with an empty one; on the transmit completion `send_continue`
re-invokes `send` with `write_remaining = 1 > 0 = slice.len()`, and the
source-window computation `slice.len() - write_remaining` underflows — the
embedded machine crashes, so the claimed safety does not hold for all
reachable calls. -/
theorem claim_send_underflow_cex :
    runOps init c10pre = StepRes.ok (stOf (runOps init c10pre)) ∧
    (getApp (stOf (runOps init c10pre)).apps 0).write_remaining = 1 ∧
    (getApp (stOf (runOps init c10pre)).apps 0).write_buffer =
      some (List.replicate 65 3) ∧
    runOps init c10ops = StepRes.crash :=
  ⟨rfl, rfl, rfl, rfl⟩

end Claims4

section WriteInvariant

/-- The default grant entry trivially satisfies the window bound. -/
theorem ainv_default : AInv appDefault := by
  intro b hb
  simp [appDefault] at hb

/-- `send` returns an app whose retained buffer is long enough, provided
it was handed a slice covering `write_remaining` and the incoming app's
buffer was already taken. -/
theorem send_ainv {s : St} {i : Nat} {a : App} {sl : List Nat} {s' : St}
    {a' : App} (hwb : a.write_buffer = none)
    (hle : a.write_remaining ≤ sl.length)
    (h : send s i a sl = some (s', a')) : AInv a' := by
  rcases send_cases h with ⟨oid, _, _, rfl⟩ | ⟨_, _, _, rfl⟩ |
    ⟨buffer, _, _, _, ⟨hc, _, rfl⟩ | ⟨hc, _, rfl⟩⟩
  · intro b hb
    simp only [] at hb
    simp only [Option.some.injEq] at hb
    rw [← hb]
    exact hle
  · intro b hb
    rw [hwb] at hb
    exact absurd hb (by simp)
  · intro b hb
    simp only [Option.some.injEq] at hb
    rw [← hb]
    simp only []
    omega
  · intro b hb
    simp only [] at hb
    rw [hwb] at hb
    exact absurd hb (by simp)

/-- `send_continue` preserves the window bound on the app it returns. -/
theorem send_continue_ainv {s : St} {i : Nat} {a : App} {s' : St} {a' : App}
    {r : Except ErrX Bool} (ha : AInv a)
    (h : send_continue s i a = some (s', a', r)) : AInv a' := by
  rcases send_continue_cases h with ⟨_, _, rfl, _⟩ | ⟨_, _, _, rfl, _⟩ |
    ⟨sl, _, hwb, _, hs⟩
  · exact ha
  · exact ha
  · exact send_ainv (a := { a with write_buffer := none }) rfl (ha sl hwb) hs

/-- Setting a bounded entry keeps the whole grant bounded. -/
theorem winvl_set {l : List (Nat × App)} {i : Nat} {a : App}
    (h : WInvL l) (ha : AInv a) : WInvL (setApp l i a) := by
  intro j
  by_cases hj : j = i
  · subst hj
    by_cases hhas : hasApp l j
    · rw [getApp_setApp_self hhas]
      exact ha
    · simp only [Bool.not_eq_true] at hhas
      rw [setApp_absent hhas]
      exact h j
  · rw [getApp_setApp_ne hj]
    exact h j

/-- Attaching a fresh (default) entry keeps the grant bounded. -/
theorem winvl_ensure {l : List (Nat × App)} (i : Nat) (h : WInvL l) :
    WInvL (ensureApp l i) := by
  intro j
  by_cases hj : j = i
  · subst hj
    rw [getApp_ensureApp_self]
    exact h j
  · rw [getApp_ensureApp_ne hj]
    exact h j

end WriteInvariant

section WriteInvariant2

/-- The arbitration loop cannot panic and keeps the grant bounded when
every entry satisfies the window bound. -/
theorem arbitrate_winv (ids : List Nat) : ∀ (s : St), WInvL s.apps →
    ∃ s', arbitrate s ids = some s' ∧ WInvL s'.apps := by
  induction ids with
  | nil =>
    intro s h
    exact ⟨s, rfl, h⟩
  | cons i rest ih =>
    intro s h
    unfold arbitrate
    dsimp only
    by_cases hp : (getApp s.apps i).pending_write = true
    · rw [if_pos hp]
      have ha1 : AInv { getApp s.apps i with pending_write := false } := by
        intro b hb
        exact h i b hb
      obtain ⟨⟨s2, app2, r⟩, hsc⟩ := send_continue_total
        (s := s) (i := i) (a := { getApp s.apps i with pending_write := false }) ha1
      rw [hsc]
      have h2 : WInvL s2.apps := by
        rw [(send_continue_frame hsc).1]
        exact h
      have ha2 : AInv app2 := send_continue_ainv ha1 hsc
      rcases r with e | more
      · dsimp only
        have ha3 : AInv { app2 with write_len := 0, write_remaining := 0, pending_write := false } := by
          intro b hb
          exact Nat.zero_le _
        by_cases hcb : app2.write_callback = true
        · rw [if_pos hcb]
          exact ih _ (winvl_set h2 ha3)
        · rw [if_neg hcb]
          exact ih _ (winvl_set h2 ha3)
      · dsimp only
        by_cases hmore : more = true
        · rw [if_pos hmore]
          exact ⟨_, rfl, winvl_set h2 ha2⟩
        · rw [if_neg hmore]
          exact ih _ (winvl_set h2 ha2)
    · rw [if_neg hp]
      exact ih s h

/-- The owner phase of a transmit completion cannot panic and keeps the
grant bounded. -/
theorem completeOwner_winv {s : St} (appid : Nat) (h : WInvL s.apps) :
    ∃ s', completeOwner s appid = some s' ∧ WInvL s'.apps := by
  unfold completeOwner
  dsimp only
  have h1 : WInvL (ensureApp s.apps appid) := winvl_ensure appid h
  have ha : AInv (getApp (ensureApp s.apps appid) appid) := h1 appid
  obtain ⟨⟨s2, app2, r⟩, hsc⟩ := send_continue_total
    (s := { s with tx_in_progress := none, apps := ensureApp s.apps appid })
    (i := appid) (a := getApp (ensureApp s.apps appid) appid) ha
  rw [hsc]
  have h2 : WInvL s2.apps := by
    rw [(send_continue_frame hsc).1]
    exact h1
  have ha2 : AInv app2 := send_continue_ainv ha hsc
  rcases r with e | more
  · dsimp only
    have ha3 : AInv { app2 with write_len := 0, write_remaining := 0, pending_write := false } := by
      intro b hb
      exact Nat.zero_le _
    by_cases hcb : app2.write_callback = true
    · rw [if_pos hcb]
      exact ⟨_, rfl, winvl_set h2 ha3⟩
    · rw [if_neg hcb]
      exact ⟨_, rfl, winvl_set h2 ha3⟩
  · dsimp only
    by_cases hmore : more = true
    · rw [if_pos hmore]
      exact ⟨_, rfl, winvl_set h2 ha2⟩
    · rw [if_neg hmore]
      have ha3 : AInv { app2 with write_len := 0 } := by
        intro b hb
        exact ha2 b hb
      by_cases hcb : app2.write_callback = true
      · rw [if_pos hcb]
        exact ⟨_, rfl, winvl_set h2 ha3⟩
      · rw [if_neg hcb]
        exact ⟨_, rfl, winvl_set h2 ha3⟩

/-- A transmit completion cannot panic and keeps the grant bounded. -/
theorem transmitted_buffer_winv {s : St} (buf : List Nat)
    (h : WInvL s.apps) :
    ∃ s', transmitted_buffer s buf = some s' ∧ WInvL s'.apps := by
  unfold transmitted_buffer
  dsimp only
  rcases hin : s.tx_in_progress with _ | appid
  · dsimp only
    rw [if_pos rfl]
    exact arbitrate_winv _ _ h
  · dsimp only
    obtain ⟨s4, hco, h4⟩ := completeOwner_winv
      (s := { s with tx_buffer := some buf, tx_in_progress := some appid }) appid h
    rw [hco]
    dsimp only
    by_cases h4in : s4.tx_in_progress = none
    · rw [if_pos h4in]
      exact arbitrate_winv _ _ h4
    · rw [if_neg h4in]
      exact ⟨s4, rfl, h4⟩

/-- `send_new` cannot panic and returns a bounded app without touching the
grant list. -/
theorem send_new_winv {s : St} {i : Nat} {a : App} (len : Nat)
    (ha : AInv a) :
    ∃ s' a' rc, send_new s i a len = some (s', a', rc) ∧ AInv a' ∧
      s'.apps = s.apps := by
  unfold send_new
  rcases hwb : a.write_buffer with _ | sl
  · exact ⟨s, a, _, rfl, ha, rfl⟩
  · dsimp only
    obtain ⟨⟨s2, a2⟩, hs⟩ := @send_total s i
      { a with write_buffer := none, write_len := min len sl.length, write_remaining := min len sl.length }
      sl (Nat.min_le_right len sl.length)
    rw [hs]
    exact ⟨s2, a2, _, rfl,
      send_ainv (a := { a with write_buffer := none, write_len := min len sl.length, write_remaining := min len sl.length })
        rfl (Nat.min_le_right len sl.length) hs,
      (send_frame hs).1⟩

/-- `receive_new` leaves the write-side fields of the app and the grant
list untouched. -/
theorem receive_new_wframe {s : St} {i : Nat} {a : App} {len : Nat}
    {s' : St} {a' : App} {r : RC} (h : receive_new s i a len = (s', a', r))
    (ha : AInv a) : AInv a' ∧ s'.apps = s.apps := by
  rcases receive_new_cases h with ⟨_, rfl, rfl, _⟩ |
    ⟨rb, _, _, rfl, rfl, _⟩ | ⟨rb, sl, _, _, _, rfl, rfl, _⟩ |
    ⟨rb, sl, _, _, _, rfl, rfl, _⟩
  · exact ⟨ha, rfl⟩
  · exact ⟨ha, rfl⟩
  · exact ⟨ha, rfl⟩
  · refine ⟨?_, rfl⟩
    intro b hb
    exact ha b hb

end WriteInvariant2

section WriteInvariant3

/-- `received_buffer` keeps the grant bounded. -/
theorem received_buffer_winv (s : St) (buf : List Nat) (rx_len : Nat)
    (err : UartErr) (h : WInvL s.apps) :
    WInvL (received_buffer s buf rx_len err).apps := by
  unfold received_buffer
  dsimp only
  rcases hin : s.rx_in_progress with _ | appid
  · exact h
  · dsimp only
    by_cases hcb : (getApp (ensureApp s.apps appid) appid).read_callback = true
    · rw [if_pos hcb]
      rcases err
      · dsimp only
        rcases hrb : (getApp (ensureApp s.apps appid) appid).read_buffer
            with _ | ab
        · exact winvl_ensure appid h
        · dsimp only
          refine winvl_set (winvl_ensure appid h) ?_
          intro b hb
          exact (winvl_ensure appid h) appid b hb
      · dsimp only
        rcases hrb : (getApp (ensureApp s.apps appid) appid).read_buffer
            with _ | ab
        · exact winvl_ensure appid h
        · dsimp only
          refine winvl_set (winvl_ensure appid h) ?_
          intro b hb
          exact (winvl_ensure appid h) appid b hb
      · exact winvl_ensure appid h
    · rw [if_neg hcb]
      exact winvl_ensure appid h

/-- `command` cannot panic and keeps the grant bounded. -/
theorem command_winv {s : St} (c arg a : Nat) (h : WInvL s.apps) :
    ∃ s1 rc, command s c arg a = some (s1, rc) ∧ WInvL s1.apps := by
  unfold command
  split
  · exact ⟨s, _, rfl, h⟩
  · dsimp only
    obtain ⟨s2, a2, rc, hsn, ha2, happs⟩ := send_new_winv
      (s := { s with apps := ensureApp s.apps a }) (i := a)
      (a := getApp (ensureApp s.apps a) a) arg ((winvl_ensure a h) a)
    rw [hsn]
    refine ⟨_, _, rfl, winvl_set ?_ ha2⟩
    rw [happs]
    exact winvl_ensure a h
  · dsimp only
    rcases hr : receive_new { s with apps := ensureApp s.apps a } a
        (getApp (ensureApp s.apps a) a) arg with ⟨s2, a2, rc⟩
    obtain ⟨ha2, happs⟩ := receive_new_wframe hr ((winvl_ensure a h) a)
    refine ⟨_, _, rfl, winvl_set ?_ ha2⟩
    rw [happs]
    exact winvl_ensure a h
  · exact ⟨_, _, rfl, h⟩
  · exact ⟨_, _, rfl, h⟩

/-- A step respecting `OkOp` from a bounded state cannot crash and keeps
the grant bounded. -/
theorem winv_step {s : St} {op : Op} (h : WInvL s.apps) (hop : OkOp s op) :
    step s op ≠ StepRes.crash ∧
    (∀ s', step s op = StepRes.ok s' → WInvL s'.apps) := by
  cases op with
  | opAllow a n sl =>
    refine ⟨by simp [step], ?_⟩
    intro s' hs
    simp only [step, StepRes.ok.injEq] at hs
    rw [← hs]
    unfold allowFn
    rcases sl with _ | sl0
    · split
      · dsimp only
        refine winvl_set (winvl_ensure a h) ?_
        intro b hb
        exact absurd hb (by simp)
      · dsimp only
        refine winvl_set (winvl_ensure a h) ?_
        intro b hb
        exact (winvl_ensure a h) a b hb
      · exact h
    · split
      next hn =>
        dsimp only
        refine winvl_set (winvl_ensure a h) ?_
        intro b hb
        simp only [Option.some.injEq] at hb
        rw [← hb, getApp_ensureApp_self]
        exact hop rfl
      next hn =>
        dsimp only
        refine winvl_set (winvl_ensure a h) ?_
        intro b hb
        exact (winvl_ensure a h) a b hb
      next => exact h
  | opSubscribe a n cb =>
    refine ⟨by simp [step], ?_⟩
    intro s' hs
    simp only [step, StepRes.ok.injEq] at hs
    rw [← hs]
    unfold subscribeFn
    split
    · dsimp only
      refine winvl_set (winvl_ensure a h) ?_
      intro b hb
      exact (winvl_ensure a h) a b hb
    · dsimp only
      refine winvl_set (winvl_ensure a h) ?_
      intro b hb
      exact (winvl_ensure a h) a b hb
    · exact h
  | opCommand a c arg =>
    obtain ⟨s1, rc, hc, h1⟩ := command_winv c arg a h
    constructor
    · simp [step, hc]
    · intro s' hs
      simp only [step, hc] at hs
      simp only [StepRes.ok.injEq] at hs
      rw [← hs]
      exact h1
  | opTxComplete =>
    rcases hhw : s.hw_tx with _ | ⟨buf, tlen⟩
    · refine ⟨by simp [step, hhw], ?_⟩
      intro s' hs
      simp only [step, hhw] at hs
      exact absurd hs (by simp)
    · obtain ⟨s1, htb, h1⟩ := transmitted_buffer_winv
        (s := { s with hw_tx := none }) buf h
      refine ⟨by simp [step, hhw, htb], ?_⟩
      intro s' hs
      simp only [step, hhw, htb] at hs
      simp only [StepRes.ok.injEq] at hs
      rw [← hs]
      exact h1
  | opRxComplete ret rx_len err =>
    rcases hhw : s.hw_rx with _ | ⟨buf, reqlen⟩
    · refine ⟨by simp [step, hhw], ?_⟩
      intro s' hs
      simp only [step, hhw] at hs
      exact absurd hs (by simp)
    · constructor
      · simp only [step, hhw]
        try dsimp only
        split <;> simp
      · intro s' hs
        simp only [step, hhw] at hs
        try dsimp only at hs
        split at hs
        · simp only [StepRes.ok.injEq] at hs
          rw [← hs]
          exact received_buffer_winv _ ret rx_len err h
        · exact absurd hs (by simp)

/-- In every `OkOp`-reachable state the grant is bounded. -/
theorem winv_reachR {s : St} (h : ReachR s) : WInvL s.apps := by
  induction h with
  | init =>
    intro i
    exact ainv_default
  | step hr hok hs ih => exact (winv_step ih hok).2 _ hs

end WriteInvariant3

section Claims5

/-- Claim C10 (amended): for every state reachable under the restriction
that `allow` (operand 1) never replaces a process's write buffer with one
shorter than its current `write_remaining`, no operation can reach the
panic branch of `send` — the source-window computation `slice.len() -
write_remaining` never underflows.  Without the restriction the claim is
false (see the counterexample): an `allow` during an in-flight chunked
transmit may shrink the buffer below `write_remaining`. -/
theorem claim_send_no_underflow :
    ∀ (s : St), ReachR s → ∀ (op : Op), OkOp s op →
      step s op ≠ StepRes.crash :=
  fun _ hr _ hop => (winv_step (winv_reachR hr) hop).1

/-- Witness for C10: a concrete reachable state and operation. -/
theorem claim_send_no_underflow_witness :
    step init (Op.opCommand 0 1 0) ≠ StepRes.crash :=
  claim_send_no_underflow init ReachR.init (Op.opCommand 0 1 0) trivial

end Claims5

end Tock
